import Mathlib

/-!
The gtun repository: reverse-proxy rule loader, registry access handler, client session loop

A shallow embedding of the parts of the repository that the verified properties are about:

* `gtund/reverse.go`: `NewReverse`, `LoadReversePolicy`, `Proxy`, `reverse`, `Copy`;
* `god/registry/gtun.go`: `checkAuth`, `onGtunAccess`;
* `gtun/client.go`: `Client.Run`, `rcv`, `snd`, `heartbeat`, `ifaceRead`.

Go strings and byte slices are lists of bytes (`List Nat`); results of calls into the
operating system, the network and packages that are not part of these files are inputs
of the model.
-/

/-! ## gtund/reverse.go: the rule file loader -/

namespace gtund

/-- ASCII text as the byte sequence a Go string holds. -/
def bytes (s : String) : List Nat := s.toList.map Char.toNat

/-- Size of the buffer of `bufio.NewReader`. -/
def defaultBufSize : Nat := 4096

/-- The end-of-line handling of `bufio.Reader.ReadLine`: a carriage return right before the
line feed is dropped with it. -/
def dropCR (l : List Nat) : List Nat :=
  if l.getLast? = some 13 then l.dropLast else l

/-- One call of `reader.ReadLine()` on a reader whose unread input is `r`: `none` is `io.EOF`,
`some (line, rest)` is the returned line and the input left for the next call.
The line feed is searched in the buffer only. When `defaultBufSize` bytes are buffered without
a line feed, the buffer content is returned (the `isPrefix` result, which the caller
discards, is then true); a carriage return at the end of a full buffer is put back. -/
def ReadLine (r : List Nat) : Option (List Nat × List Nat) :=
  match r with
  | [] => none
  | _ :: _ =>
    let line := r.takeWhile (fun b => b != 10)
    if line.length < defaultBufSize then
      match r.dropWhile (fun b => b != 10) with
      | [] => some (line, [])
      | _ :: rest => some (dropCR line, rest)
    else
      let buf := r.take defaultBufSize
      if buf.getLast? = some 13 then some (buf.dropLast, r.drop (defaultBufSize - 1))
      else some (buf, r.drop defaultBufSize)

/-- Prepend a byte to the first piece of a split. -/
def consHead (c : Nat) : List (List Nat) → List (List Nat)
  | [] => [[c]]
  | h :: t => (c :: h) :: t

/-- The scan of `strings.Split` for a non-empty separator: pieces between the leftmost,
non-overlapping occurrences of `sep`; `skip` counts the bytes of a matched separator that are
still to be passed over. -/
def SplitFrom (sep : List Nat) : List Nat → Nat → List (List Nat)
  | [], _ => [[]]
  | _ :: rest, skip + 1 => SplitFrom sep rest skip
  | c :: rest, 0 =>
    if sep.isPrefixOf (c :: rest) then [] :: SplitFrom sep rest (sep.length - 1)
    else consHead c (SplitFrom sep rest 0)

/-- The function `strings.Split(s, sep)` for a non-empty `sep`. -/
def Split (s sep : List Nat) : List (List Nat) := SplitFrom sep s 0

/-- The function `strings.Contains(s, sep)`. -/
def Contains : List Nat → List Nat → Bool
  | [], sep => sep.isPrefixOf []
  | c :: rest, sep => sep.isPrefixOf (c :: rest) || Contains rest sep

/-- The type `ReversePolicy`. -/
structure ReversePolicy where
  Proto : List Nat
  From : List Nat
  To : List Nat
  deriving DecidableEq, Repr

/-- The body of the loop of `LoadReversePolicy` after a line has been read: `none` stands for
each of the three `continue` statements. -/
def parseLine (line : List Nat) : Option ReversePolicy :=
  if line.head? = some 35 then none
  else
    match Split line (bytes " ") with
    | [p, sp1] =>
      match Split sp1 (bytes "->") with
      | [f, t] => some { Proto := p, From := f, To := t }
      | _ => none
    | _ => none

/-- The read loop of `LoadReversePolicy`; `reverse` is the slice built so far. Every call of
`ReadLine` shortens the input, so `fuel` above the input length is never used up
(`loadLoop_isSome`). -/
def loadLoop : Nat → List Nat → List ReversePolicy → Option (List ReversePolicy)
  | 0, _, _ => none
  | fuel + 1, r, reverse =>
    match ReadLine r with
    | none => some reverse
    | some (line, rest) =>
      match parseLine line with
      | some p => loadLoop fuel rest (reverse ++ [p])
      | none => loadLoop fuel rest reverse

deriving instance DecidableEq for Except

/-- The errors of `LoadReversePolicy`: `openFail` is the error of `os.Open`; `unfinished`
stands for a read loop that is out of fuel, which does not happen (`LoadReversePolicy_eq`). -/
inductive LoadError
  | openFail
  | unfinished
  deriving DecidableEq, Repr

/-- The function `LoadReversePolicy`. The argument is what `os.Open(path)` finds: `none` when
the file cannot be opened, otherwise the content of the file, which is read without error up
to its end. -/
def LoadReversePolicy (file : Option (List Nat)) : Except LoadError (List ReversePolicy) :=
  match file with
  | none => .error .openFail
  | some content =>
    match loadLoop (content.length + 1) content [] with
    | some reverse => .ok reverse
    | none => .error .unfinished

/-- The policies that the read loop of `LoadReversePolicy` collects from the input `r`. -/
def policiesOf (r : List Nat) : List ReversePolicy :=
  (loadLoop (r.length + 1) r []).getD []

/-- Add a byte at the end of the last piece of a split. -/
def appendToLast (x : Nat) : List (List Nat) → List (List Nat)
  | [] => []
  | [a] => [a ++ [x]]
  | a :: b :: rest => a :: appendToLast x (b :: rest)

/-- A text of lines, each ended by a line feed. -/
def joinLines : List (List Nat) → List Nat
  | [] => []
  | l :: rest => l ++ 10 :: joinLines rest

/-- The lines that the rule parser is to skip: a line that is blank, begins with `#`, does
not consist of exactly two space-separated tokens, or whose second token does not split
into exactly two parts on `->`. -/
def Skipped (line : List Nat) : Prop :=
  line = [] ∨ line.head? = some 35 ∨ (Split line (bytes " ")).length ≠ 2 ∨
  (Split ((Split line (bytes " ")).getD 1 []) (bytes "->")).length ≠ 2

instance (line : List Nat) : Decidable (Skipped line) := by
  unfold Skipped
  infer_instance

/-- A listener started by `ProxyTCP` or `ProxyUDP`. -/
inductive Listener
  | tcp (from_ to_ : List Nat)
  | udp (from_ to_ : List Nat)
  deriving DecidableEq, Repr

/-- Lower case of an ASCII letter. -/
def toLowerByte (b : Nat) : Nat := if 65 ≤ b ∧ b ≤ 90 then b + 32 else b

/-- The function `strings.ToLower` on ASCII text. The two comparisons of `Proxy` are with
ASCII words, and no character outside ASCII has `t`, `c`, `p`, `u` or `d` as its lower case,
so both comparisons have the same outcome on every string. -/
def ToLower (s : List Nat) : List Nat := s.map toLowerByte

/-- What the calls of package `net` in `ProxyTCP` and `ProxyUDP` return for a listen address:
whether `net.Listen("tcp", from)`, `net.ResolveUDPAddr("udp", from)` and `net.ListenUDP`
on the resolved address succeed. -/
structure Net where
  Listen : List Nat → Bool
  ResolveUDPAddr : List Nat → Bool
  ListenUDP : List Nat → Bool

/-- The function `ProxyTCP`: the TCP listener it starts. When `net.Listen` fails the error
is logged and no listener is started. -/
def ProxyTCP (net : Net) (from_ to_ : List Nat) : List Listener :=
  if net.Listen from_ then [Listener.tcp from_ to_] else []

/-- The function `ProxyUDP`: the UDP listener it starts. When `net.ResolveUDPAddr` or
`net.ListenUDP` fails the error is logged and no listener is started. -/
def ProxyUDP (net : Net) (from_ to_ : List Nat) : List Listener :=
  if net.ResolveUDPAddr from_ then
    if net.ListenUDP from_ then [Listener.udp from_ to_] else []
  else []

/-- The function `Proxy`: the listeners it starts. -/
def Proxy (net : Net) (prot from_ to_ : List Nat) : List Listener :=
  (if ToLower prot = bytes "tcp" then ProxyTCP net from_ to_ else []) ++
  (if ToLower prot = bytes "udp" then ProxyUDP net from_ to_ else [])

/-- The function `NewReverse`: the error of `LoadReversePolicy`, or the policies kept in the
`Reverse` value with the listeners that the calls `go Proxy(r.Proto, r.From, r.To)` start,
listed in the order of the policies. -/
def NewReverse (net : Net) (file : Option (List Nat)) :
    Except LoadError (List ReversePolicy × List Listener) :=
  match LoadReversePolicy file with
  | .error err => .error err
  | .ok policy => .ok (policy, policy.flatMap (fun r => Proxy net r.Proto r.From r.To))

/-- The lines that the successive calls of `ReadLine` return on the input `r`, with the fuel
of `loadLoop`. -/
def readLines : Nat → List Nat → List (List Nat)
  | 0, _ => []
  | fuel + 1, r =>
    match ReadLine r with
    | none => []
    | some (line, rest) => line :: readLines fuel rest

/-- The lines that the read loop of `LoadReversePolicy` reads from a file. -/
def linesOf (content : List Nat) : List (List Nat) := readLines (content.length + 1) content

end gtund

/-! ## gtund/reverse.go: the relay engine -/

namespace gtund

/-- What one round of the loop of `Copy` meets: `src.Read` fails (end of stream or another
error), `src.Read` succeeds and `dst.Write` fails, or both succeed. -/
inductive Round
  | readFail
  | writeFail
  | forwarded (data : List Nat)
  deriving DecidableEq, Repr

/-- The function `Copy(dst, src)` on the rounds that the two streams allow. The first
component is what was written to `dst`; the second says whether the loop was left (`break`).
When the rounds are used up the task is blocked in `src.Read`. -/
def Copy : List Round → List (List Nat) × Bool
  | [] => ([], false)
  | Round.readFail :: _ => ([], true)
  | Round.writeFail :: _ => ([], true)
  | Round.forwarded data :: rest => (data :: (Copy rest).1, (Copy rest).2)

/-- Where the goroutine that called `reverse` stands. -/
inductive RelayPc
  | dialing
  | waiting
  | closingRconn
  | closingClient
  | returned
  deriving DecidableEq, Repr

/-- The state of one call of `reverse`. `up` is the goroutine of `Copy(rconn, clientconn)`,
`down` the goroutine of `Copy(clientconn, rconn)`; `upRounds` and `downRounds` are the rounds
that the streams still allow to each of them, `upDone` and `downDone` say that the goroutine
has called `wg.Done()`. -/
structure Relay where
  pc : RelayPc
  dialed : Bool
  upRounds : List Round
  upRunning : Bool
  upDone : Bool
  downRounds : List Round
  downRunning : Bool
  downDone : Bool
  clientOpen : Bool
  rconnOpen : Bool
  deriving DecidableEq, Repr

/-- The steps of a call of `reverse`. -/
inductive RelayStep
  | dial (ok : Bool)
  | upEnds
  | downEnds
  | waitReturns
  | closeRconn
  | closeClient
  deriving DecidableEq, Repr

/-- The state in which `reverse(proto, clientconn, to)` is entered, with the rounds that the
two streams will allow. -/
def Relay.init (up down : List Round) : Relay :=
  { pc := .dialing, dialed := false, upRounds := up, upRunning := false, upDone := false,
    downRounds := down, downRunning := false, downDone := false, clientOpen := true,
    rconnOpen := false }

/-- One step of `reverse`; `none` when the step cannot be taken in the state.
* `dial ok`: `net.Dial` returns; on failure only the deferred `clientconn.Close()` is left,
  on success both goroutines are started and the caller reaches `wg.Wait()`;
* `upEnds`, `downEnds`: the loop of `Copy` of that direction is left, which takes a failing
  round, and the goroutine calls `wg.Done()`;
* `waitReturns`: `wg.Wait()` returns, which needs both `wg.Done()` calls;
* `closeRconn`, `closeClient`: the deferred calls, in the reverse order of the `defer`s. -/
def Relay.step (s : Relay) : RelayStep → Option Relay
  | .dial ok =>
    if s.pc = .dialing then
      if ok then some { s with pc := .waiting, dialed := true, upRunning := true,
                               downRunning := true, rconnOpen := true }
      else some { s with pc := .closingClient }
    else none
  | .upEnds =>
    if s.upRunning ∧ (Copy s.upRounds).2 then some { s with upRunning := false, upDone := true }
    else none
  | .downEnds =>
    if s.downRunning ∧ (Copy s.downRounds).2 then
      some { s with downRunning := false, downDone := true }
    else none
  | .waitReturns =>
    if s.pc = .waiting ∧ s.upDone ∧ s.downDone then some { s with pc := .closingRconn }
    else none
  | .closeRconn =>
    if s.pc = .closingRconn then some { s with pc := .closingClient, rconnOpen := false }
    else none
  | .closeClient =>
    if s.pc = .closingClient then some { s with pc := .returned, clientOpen := false }
    else none

/-- Run a sequence of steps. -/
def Relay.exec (s : Relay) : List RelayStep → Option Relay
  | [] => some s
  | a :: rest =>
    match s.step a with
    | none => none
    | some t => t.exec rest

/-- What holds in every state of a call of `reverse`: before the dial the client stream is
open, and after a successful dial, as long as one of the two goroutines has not called
`wg.Done()`, the caller is in `wg.Wait()` and both streams are open. -/
def Relay.OpenUntilBothDone (s : Relay) : Prop :=
  (s.pc = .dialing → s.clientOpen = true ∧ s.dialed = false) ∧
  (s.dialed = true → (s.upDone = false ∨ s.downDone = false) →
    s.pc = .waiting ∧ s.clientOpen = true ∧ s.rconnOpen = true)

end gtund

/-! ## god/registry/gtun.go -/

namespace registry

/-- The request body `common.C2GRegister`. -/
structure C2GRegister where
  AuthToken : String
  IsWindows : Bool
  deriving DecidableEq, Repr

/-- The response data `common.G2CRegister`. -/
structure G2CRegister where
  ServerAddress : String
  deriving DecidableEq, Repr

/-- The fields of the node record of `models` that `onGtunAccess` reads. -/
structure GtundInfo where
  PublicIP : String
  Port : Int
  deriving DecidableEq, Repr

/-- Modelled from the spec: `common.Response` is not among the sources. The response body
is `{data: {serverAddress: "<ip>:<port>"} | null, error: string | null}`; `none` is `null`. -/
structure ResponseBody where
  data : Option G2CRegister
  error : Option String
  deriving DecidableEq, Repr

/-- Modelled from the spec: `common.Response(data, err)` builds the response body from the
data and the error it is given. -/
def Response (data : Option G2CRegister) (err : Option String) : ResponseBody :=
  { data := data, error := err }

/-- The type `gtun` of the registry. -/
structure gtun where
  listener : String
  tokens : List String
  deriving DecidableEq, Repr

/-- The loop of `checkAuth` over `g.tokens`. -/
def checkAuthLoop (regInfo : C2GRegister) : List String → Bool
  | [] => false
  | token :: rest => if token = regInfo.AuthToken then true else checkAuthLoop regInfo rest

/-- The method `checkAuth`. -/
def gtun.checkAuth (g : gtun) (regInfo : C2GRegister) : Bool :=
  checkAuthLoop regInfo g.tokens

/-- What `ioutil.ReadAll` and `json.Unmarshal` make of the request: the body cannot be read,
it is not JSON for a `C2GRegister`, or it is decoded into `regInfo`. -/
inductive Request
  | unreadable
  | malformed (err : String)
  | decoded (regInfo : C2GRegister)
  deriving DecidableEq, Repr

/-- What a call of `onGtunAccess` does: the body it writes, if any, and the arguments of
the calls of `GetAvailableGtund` it makes, in order. -/
structure Handled where
  written : Option ResponseBody
  selectorCalls : List Bool
  deriving DecidableEq, Repr

/-- The function `sprintf("%s:%d", ip, port)`. -/
def addressOf (ip : String) (port : Int) : String := ip ++ ":" ++ toString port

/-- The handler `onGtunAccess`; `GetAvailableGtund` is the node selector of `models`. -/
def gtun.onGtunAccess (g : gtun) (GetAvailableGtund : Bool → Except String GtundInfo)
    (r : Request) : Handled :=
  match r with
  | .unreadable => { written := none, selectorCalls := [] }
  | .malformed err => { written := some (Response none (some err)), selectorCalls := [] }
  | .decoded regInfo =>
    if g.checkAuth regInfo = false then
      { written := some (Response none (some "auth fail")), selectorCalls := [] }
    else
      match GetAvailableGtund regInfo.IsWindows with
      | .error err =>
        { written := some (Response none (some err)), selectorCalls := [regInfo.IsWindows] }
      | .ok gtundInfo =>
        let respObj : G2CRegister :=
          { ServerAddress := addressOf gtundInfo.PublicIP gtundInfo.Port }
        { written := some (Response (some respObj) none), selectorCalls := [regInfo.IsWindows] }

/-- Modelled from the spec: `Registry.Access` of the client (`gtun/registry.go`) is not among
the sources. The discovery client asks the registry for a relay address: from a response
with data and no error it returns the server address and no error, and otherwise an empty
address and an error. -/
def Access (reply : Option ResponseBody) : String × Option String :=
  match reply with
  | none => ("", some "no response")
  | some body =>
    match body.error, body.data with
    | some err, _ => ("", some err)
    | none, some data => (data.ServerAddress, none)
    | none, none => ("", some "no data")

end registry

/-! ## gtun/client.go -/

namespace gtun

/-- What one call of `common.Decode(conn)` returns: an error, or a command and a payload. -/
inductive Decoded
  | fail
  | frame (cmd : Nat) (pkt : List Nat)
  deriving DecidableEq, Repr

/-- What `rcv` does, in order. -/
inductive RcvEvent
  | logHeartbeat
  | ifceWrite (pkt : List Nat)
  | logUnimplemented (cmd : Nat) (pkt : List Nat)
  | logDecodeFail
  | connClose
  | wgDone
  deriving DecidableEq, Repr

/-- The function `rcv` on the results of the successive calls of `common.Decode`; the two
command constants of package `common` are parameters. When the results are used up the task
is blocked in `Decode`. An error of `ifce.Write` is logged and changes nothing else. -/
def rcv (S2C_HEARTBEAT C2C_DATA : Nat) : List Decoded → List RcvEvent
  | [] => []
  | Decoded.fail :: _ => [.logDecodeFail, .connClose, .wgDone]
  | Decoded.frame cmd pkt :: rest =>
    (if cmd = S2C_HEARTBEAT then [RcvEvent.logHeartbeat]
     else if cmd = C2C_DATA then [RcvEvent.ifceWrite pkt]
     else [RcvEvent.logUnimplemented cmd pkt]) ++ rcv S2C_HEARTBEAT C2C_DATA rest

/-- The payloads written to the virtual interface, in order. -/
def ifceWrites : List RcvEvent → List (List Nat)
  | [] => []
  | RcvEvent.ifceWrite pkt :: rest => pkt :: ifceWrites rest
  | _ :: rest => ifceWrites rest

/-- The frames that precede the first decode failure. -/
def beforeFailure : List Decoded → List Decoded
  | [] => []
  | Decoded.fail :: _ => []
  | f :: rest => f :: beforeFailure rest

/-- The payloads of the frames whose command is `cmd`, in order of arrival. -/
def payloadsOf (cmd : Nat) : List Decoded → List (List Nat)
  | [] => []
  | Decoded.fail :: rest => payloadsOf cmd rest
  | Decoded.frame c pkt :: rest =>
    if c = cmd then pkt :: payloadsOf cmd rest else payloadsOf cmd rest

/-- Where `heartbeat` stands: in the `select`, in `sndqueue <- bytes`, or returned. -/
inductive HeartbeatPc
  | select
  | send
  | stopped
  deriving DecidableEq, Repr

/-- Where `snd` stands: in `<-sndqueue`, in `conn.Write`, or returned. -/
inductive SndPc
  | receive
  | write
  | stopped
  deriving DecidableEq, Repr

/-- Where `rcv` stands: in `common.Decode`, or returned. -/
inductive RcvPc
  | decode
  | stopped
  deriving DecidableEq, Repr

/-- Where `ifaceRead` stands: in `ifce.Read`, in `sndqueue <- bytes`, or returned. -/
inductive IfaceReadPc
  | read
  | send
  | stopped
  deriving DecidableEq, Repr

/-- Where `Run` stands: in `wg.Wait()`, before `ifce.Close()`, or past it. -/
inductive RunPc
  | wait
  | closing
  | looping
  deriving DecidableEq, Repr

/-- The tasks of the Active state with the channel `done`, the socket and the interface.
The channel `sndqueue` is made without capacity: a send on it completes only together with
the receive of `snd`. -/
structure Active where
  heartbeat : HeartbeatPc
  snd : SndPc
  rcv : RcvPc
  ifaceRead : IfaceReadPc
  run : RunPc
  doneClosed : Bool
  connOpen : Bool
  ifceOpen : Bool
  deriving DecidableEq, Repr

/-- The steps of the tasks of the Active state. -/
inductive ActiveStep
  | heartbeatTimer
  | heartbeatDone
  | heartbeatSend
  | ifaceReadRead (ok : Bool)
  | ifaceReadSend
  | sndWrite (ok : Bool)
  | rcvDecode (ok : Bool)
  | waitReturns
  | ifceClose
  deriving DecidableEq, Repr

/-- The state in which `Run` reaches `wg.Wait()`. -/
def Active.init : Active :=
  { heartbeat := .select, snd := .receive, rcv := .decode, ifaceRead := .read, run := .wait,
    doneClosed := false, connOpen := true, ifceOpen := true }

/-- One step of a task; `none` when the step cannot be taken in the state.
* `heartbeatTimer`: the `select` of `heartbeat` takes the case of `time.After`, and the task
  goes on to `sndqueue <- bytes`;
* `heartbeatDone`: the `select` takes the case `<-done`, which needs `done` closed, and the
  task returns;
* `heartbeatSend`, `ifaceReadSend`: the send on `sndqueue` meets the receive of `snd`;
* `ifaceReadRead ok`: `ifce.Read` returns, with an error when the interface is closed;
* `sndWrite ok`: `conn.Write` returns, with an error when the socket is closed; on an error
  `snd` leaves its loop and its deferred calls close `done` and the socket;
* `rcvDecode ok`: `common.Decode` returns, with an error when the socket is closed; on an
  error `rcv` leaves its loop and its deferred call closes the socket;
* `waitReturns`: `wg.Wait()` returns, which needs `heartbeat`, `snd` and `rcv` returned;
* `ifceClose`: `Run` calls `ifce.Close()` and goes back to the top of its loop. -/
def Active.step (s : Active) : ActiveStep → Option Active
  | .heartbeatTimer =>
    if s.heartbeat = .select then some { s with heartbeat := .send } else none
  | .heartbeatDone =>
    if s.heartbeat = .select ∧ s.doneClosed then some { s with heartbeat := .stopped }
    else none
  | .heartbeatSend =>
    if s.heartbeat = .send ∧ s.snd = .receive then
      some { s with heartbeat := .select, snd := .write }
    else none
  | .ifaceReadRead ok =>
    if s.ifaceRead = .read then
      if ok then (if s.ifceOpen then some { s with ifaceRead := .send } else none)
      else some { s with ifaceRead := .stopped }
    else none
  | .ifaceReadSend =>
    if s.ifaceRead = .send ∧ s.snd = .receive then
      some { s with ifaceRead := .read, snd := .write }
    else none
  | .sndWrite ok =>
    if s.snd = .write then
      if ok then (if s.connOpen then some { s with snd := .receive } else none)
      else some { s with snd := .stopped, doneClosed := true, connOpen := false }
    else none
  | .rcvDecode ok =>
    if s.rcv = .decode then
      if ok then (if s.connOpen then some s else none)
      else some { s with rcv := .stopped, connOpen := false }
    else none
  | .waitReturns =>
    if s.run = .wait ∧ s.heartbeat = .stopped ∧ s.snd = .stopped ∧ s.rcv = .stopped then
      some { s with run := .closing }
    else none
  | .ifceClose =>
    if s.run = .closing then some { s with run := .looping, ifceOpen := false } else none

/-- Run a sequence of steps. -/
def Active.exec (s : Active) : List ActiveStep → Option Active
  | [] => some s
  | a :: rest =>
    match s.step a with
    | none => none
    | some t => t.exec rest

/-- Take a step when it can be taken, and stay in the state otherwise. -/
def Active.next (s : Active) (a : ActiveStep) : Active :=
  match s.step a with
  | none => s
  | some t => t

/-- The state that a schedule of the tasks leads to. -/
def Active.schedule (s : Active) : List ActiveStep → Active
  | [] => s
  | a :: rest => (s.next a).schedule rest

/-- The fields of `Client` and of its registry that `Run` reads. -/
structure Client where
  serverAddr : String
  must : Bool
  deriving DecidableEq, Repr

/-- What the calls of one round of the loop of `Run` return: the address and the error of
`registry.Access()`, whether `conServer`, `authorize`, `NewIfce` and `setupIface` succeed,
and the schedule of the tasks of the Active state. -/
structure Attempt where
  server : String
  accessErr : Bool
  conServer : Bool
  authorize : Bool
  NewIfce : Bool
  setupIface : Bool
  active : List ActiveStep
  deriving DecidableEq, Repr

/-- What `Run` does in one round, in order. -/
inductive RunEvent
  | Access (err : Bool)
  | emptyServer
  | sleep
  | conServer (ok : Bool)
  | authorize (ok : Bool)
  | NewIfce (ok : Bool)
  | goIfaceRead
  | setupIface (ok : Bool)
  | goRoutes
  | goHeartbeat
  | goSnd
  | goRcv
  | waitReturned
  | ifceClose
  deriving DecidableEq, Repr

/-- How a round of the loop ends: the loop starts the next round, `Run` returns, or `Run`
is still in the Active state of the round (in `wg.Wait()` or before `ifce.Close()`). -/
inductive Exit
  | next
  | returned
  | active
  deriving DecidableEq, Repr

/-- The outcome of one round: its events, how it ends, and whether the socket and the
interface handle opened in the round are still open then. -/
structure Outcome where
  trace : List RunEvent
  exit : Exit
  connOpen : Bool
  ifceOpen : Bool
  deriving DecidableEq, Repr

/-- The rest of a round of `Run` from `NewIfce` on; the socket is open. -/
def afterAuthorize (a : Attempt) (pre : List RunEvent) : Outcome :=
  if a.NewIfce = false then
    { trace := pre ++ [.NewIfce false], exit := .returned, connOpen := true, ifceOpen := false }
  else if a.setupIface = false then
    { trace := pre ++ [.NewIfce true, .goIfaceRead, .setupIface false, .sleep],
      exit := .next, connOpen := true, ifceOpen := true }
  else
    let s := Active.init.schedule a.active
    if s.run = .looping then
      { trace := pre ++ [.NewIfce true, .goIfaceRead, .setupIface true, .goRoutes,
                         .goHeartbeat, .goSnd, .goRcv, .waitReturned, .ifceClose],
        exit := .next, connOpen := s.connOpen, ifceOpen := s.ifceOpen }
    else
      { trace := pre ++ [.NewIfce true, .goIfaceRead, .setupIface true, .goRoutes,
                         .goHeartbeat, .goSnd, .goRcv],
        exit := .active, connOpen := s.connOpen, ifceOpen := s.ifceOpen }

/-- The rest of a round of `Run` once `registry.Access()` has returned. -/
def afterAccess (client : Client) (a : Attempt) (pre : List RunEvent) : Outcome :=
  let server := if a.server = "" then client.serverAddr else a.server
  if server = "" then
    { trace := pre ++ [.emptyServer, .sleep], exit := .next, connOpen := false,
      ifceOpen := false }
  else if a.conServer = false then
    { trace := pre ++ [.conServer false, .sleep], exit := .next, connOpen := false,
      ifceOpen := false }
  else if a.authorize = false then
    { trace := pre ++ [.conServer true, .authorize false, .sleep], exit := .next,
      connOpen := true, ifceOpen := false }
  else afterAuthorize a (pre ++ [.conServer true, .authorize true])

/-- One round of the loop of `Client.Run`. -/
def attempt (client : Client) (a : Attempt) : Outcome :=
  if a.accessErr then
    if client.must then
      { trace := [.Access true, .sleep], exit := .next, connOpen := false, ifceOpen := false }
    else afterAccess client a [.Access true]
  else afterAccess client a [.Access false]

/-- Where `Run` stands after some rounds: at the top of the loop, returned, or in the Active
state; with the events so far and the numbers of sockets and of interface handles that
`Run` has opened and that are not closed. -/
structure Running where
  status : Exit
  trace : List RunEvent
  conns : Nat
  ifces : Nat
  deriving DecidableEq, Repr

/-- The function `Client.Run` on the outcomes of the calls of its successive rounds. -/
def Run (client : Client) : List Attempt → Running
  | [] => { status := .next, trace := [], conns := 0, ifces := 0 }
  | a :: rest =>
    let r := attempt client a
    match r.exit with
    | .next =>
      let t := Run client rest
      { status := t.status, trace := r.trace ++ t.trace,
        conns := (if r.connOpen then 1 else 0) + t.conns,
        ifces := (if r.ifceOpen then 1 else 0) + t.ifces }
    | e =>
      { status := e, trace := r.trace, conns := if r.connOpen then 1 else 0,
        ifces := if r.ifceOpen then 1 else 0 }

/-- What holds in every state of the Active state: a returned `snd` or `rcv` has closed the
socket, `wg.Wait()` has returned only after the three tasks, and `Run` is back at its loop
only after `ifce.Close()`. -/
def Active.Closed (s : Active) : Prop :=
  (s.snd = .stopped → s.connOpen = false) ∧
  (s.run ≠ .wait → s.snd = .stopped) ∧
  (s.run = .looping → s.ifceOpen = false)

/-- What no step changes once `snd` has returned while `heartbeat` is in its send. -/
def Active.Stuck (s : Active) : Prop :=
  s.heartbeat = .send ∧ s.snd = .stopped ∧ s.doneClosed = true ∧ s.run = .wait

end gtun

/-! ## gtund/reverse.go: properties of the rule file loader -/

namespace gtund

theorem ReadLine_length_lt (r line rest : List Nat) (h : ReadLine r = some (line, rest)) :
    rest.length < r.length := by
  cases r with
  | nil => simp [ReadLine] at h
  | cons b r1 =>
    simp only [ReadLine] at h
    split_ifs at h with h1 h2
    · split at h
      · simp only [Option.some.injEq, Prod.mk.injEq] at h
        rw [← h.2]
        simp
      · rename_i x rest1 heq
        simp only [Option.some.injEq, Prod.mk.injEq] at h
        rw [← h.2]
        have hle := (List.dropWhile_sublist (fun b => b != 10) (l := b :: r1)).length_le
        rw [heq] at hle
        simp only [List.length_cons] at hle ⊢
        omega
    · simp only [Option.some.injEq, Prod.mk.injEq] at h
      rw [← h.2]
      have hle := (List.takeWhile_sublist (fun b => b != 10) (l := b :: r1)).length_le
      simp only [defaultBufSize, List.length_drop, List.length_cons] at *
      omega
    · simp only [Option.some.injEq, Prod.mk.injEq] at h
      rw [← h.2]
      have hle := (List.takeWhile_sublist (fun b => b != 10) (l := b :: r1)).length_le
      simp only [defaultBufSize, List.length_drop, List.length_cons] at *
      omega

theorem loadLoop_eof (fuel : Nat) (r : List Nat) (acc : List ReversePolicy)
    (h : ReadLine r = none) : loadLoop (fuel + 1) r acc = some acc := by
  simp only [loadLoop, h]

theorem loadLoop_skip (fuel : Nat) (r line rest : List Nat) (acc : List ReversePolicy)
    (h : ReadLine r = some (line, rest)) (hp : parseLine line = none) :
    loadLoop (fuel + 1) r acc = loadLoop fuel rest acc := by
  simp only [loadLoop, h, hp]

theorem loadLoop_keep (fuel : Nat) (r line rest : List Nat) (acc : List ReversePolicy)
    (p : ReversePolicy) (h : ReadLine r = some (line, rest)) (hp : parseLine line = some p) :
    loadLoop (fuel + 1) r acc = loadLoop fuel rest (acc ++ [p]) := by
  simp only [loadLoop, h, hp]

theorem loadLoop_fuel (f1 : Nat) : ∀ (f2 : Nat) (r : List Nat) (acc : List ReversePolicy),
    r.length < f1 → r.length < f2 → loadLoop f1 r acc = loadLoop f2 r acc := by
  induction f1 with
  | zero => intro f2 r acc h1; omega
  | succ n ih =>
    intro f2 r acc h1 h2
    cases f2 with
    | zero => omega
    | succ m =>
      cases hr : ReadLine r with
      | none => rw [loadLoop_eof n r acc hr, loadLoop_eof m r acc hr]
      | some lr =>
        obtain ⟨line, rest⟩ := lr
        have hlt := ReadLine_length_lt r line rest hr
        have hn : rest.length < n := by omega
        have hm : rest.length < m := by omega
        cases hp : parseLine line with
        | none =>
          rw [loadLoop_skip n r line rest acc hr hp, loadLoop_skip m r line rest acc hr hp]
          exact ih m rest acc hn hm
        | some p =>
          rw [loadLoop_keep n r line rest acc p hr hp, loadLoop_keep m r line rest acc p hr hp]
          exact ih m rest _ hn hm

theorem loadLoop_acc (fuel : Nat) : ∀ (r : List Nat) (acc : List ReversePolicy),
    loadLoop fuel r acc = (loadLoop fuel r []).map (fun ps => acc ++ ps) := by
  induction fuel with
  | zero => intro r acc; rfl
  | succ n ih =>
    intro r acc
    cases hr : ReadLine r with
    | none => rw [loadLoop_eof n r acc hr, loadLoop_eof n r [] hr]; simp
    | some lr =>
      obtain ⟨line, rest⟩ := lr
      cases hp : parseLine line with
      | none =>
        rw [loadLoop_skip n r line rest acc hr hp, loadLoop_skip n r line rest [] hr hp]
        exact ih rest acc
      | some p =>
        rw [loadLoop_keep n r line rest acc p hr hp, loadLoop_keep n r line rest [] p hr hp]
        rw [ih rest (acc ++ [p]), ih rest ([] ++ [p])]
        cases loadLoop n rest [] <;> simp

theorem loadLoop_isSome (fuel : Nat) : ∀ (r : List Nat) (acc : List ReversePolicy),
    r.length < fuel → ∃ ps, loadLoop fuel r acc = some ps := by
  induction fuel with
  | zero => intro r acc h; omega
  | succ n ih =>
    intro r acc h
    cases hr : ReadLine r with
    | none => exact ⟨acc, loadLoop_eof n r acc hr⟩
    | some lr =>
      obtain ⟨line, rest⟩ := lr
      have hlt := ReadLine_length_lt r line rest hr
      have hn : rest.length < n := by omega
      cases hp : parseLine line with
      | none =>
        rw [loadLoop_skip n r line rest acc hr hp]
        exact ih rest acc hn
      | some p =>
        rw [loadLoop_keep n r line rest acc p hr hp]
        exact ih rest _ hn

theorem loadLoop_eq_policiesOf (fuel : Nat) (r : List Nat) (h : r.length < fuel) :
    loadLoop fuel r [] = some (policiesOf r) := by
  obtain ⟨ps, hps⟩ := loadLoop_isSome (r.length + 1) r [] (by omega)
  rw [loadLoop_fuel fuel (r.length + 1) r [] h (by omega)]
  simp [policiesOf, hps]

theorem policiesOf_eof (r : List Nat) (h : ReadLine r = none) : policiesOf r = [] := by
  simp [policiesOf, loadLoop_eof r.length r [] h]

theorem policiesOf_line (r line rest : List Nat) (h : ReadLine r = some (line, rest)) :
    policiesOf r = (parseLine line).toList ++ policiesOf rest := by
  have hlt := ReadLine_length_lt r line rest h
  have h1 : loadLoop (r.length + 1) r [] = some (policiesOf r) :=
    loadLoop_eq_policiesOf _ r (by omega)
  have h2 : loadLoop r.length rest [] = some (policiesOf rest) :=
    loadLoop_eq_policiesOf _ rest hlt
  cases hp : parseLine line with
  | none =>
    rw [loadLoop_skip _ r line rest [] h hp, h2] at h1
    simp only [Option.some.injEq] at h1
    simp [← h1]
  | some p =>
    rw [loadLoop_keep _ r line rest [] p h hp, loadLoop_acc _ rest ([] ++ [p]), h2] at h1
    simp only [Option.map_some', Option.some.injEq, List.nil_append] at h1
    simp [← h1]

theorem LoadReversePolicy_eq (content : List Nat) :
    LoadReversePolicy (some content) = .ok (policiesOf content) := by
  simp [LoadReversePolicy, loadLoop_eq_policiesOf (content.length + 1) content (by omega)]

end gtund

namespace gtund

theorem SplitFrom_of_not_Contains (sep : List Nat) : ∀ s : List Nat,
    Contains s sep = false → SplitFrom sep s 0 = [s] := by
  intro s
  induction s with
  | nil => intro _; rfl
  | cons c rest ih =>
    intro h
    simp only [Contains, Bool.or_eq_false_iff] at h
    simp [SplitFrom, h.1, ih h.2, consHead]

theorem Contains_space_iff (s : List Nat) : Contains s [32] = false ↔ 32 ∉ s := by
  induction s with
  | nil => simp [Contains, List.isPrefixOf]
  | cons c rest ih =>
    simp only [Contains, Bool.or_eq_false_iff, ih, List.mem_cons, not_or]
    constructor
    · rintro ⟨h1, h2⟩
      refine ⟨fun e => ?_, h2⟩
      subst e
      simp [List.isPrefixOf] at h1
    · rintro ⟨h1, h2⟩
      refine ⟨?_, h2⟩
      have : ¬ c = 32 := fun e => h1 e.symm
      simp [List.isPrefixOf, this, h1]

theorem Split_at_space (a b : List Nat) (ha : 32 ∉ a) (hb : 32 ∉ b) :
    Split (a ++ 32 :: b) [32] = [a, b] := by
  unfold Split
  induction a with
  | nil =>
    have hb2 := SplitFrom_of_not_Contains [32] b ((Contains_space_iff b).mpr hb)
    simp [SplitFrom, List.isPrefixOf, hb2]
  | cons c rest ih =>
    simp only [List.mem_cons, not_or] at ha
    have hc : ¬ c = 32 := fun e => ha.1 e.symm
    have := ih ha.2
    simp [SplitFrom, List.isPrefixOf, hc, ha.1, this, consHead]

theorem Split_at_arrow (a b : List Nat) (ha : Contains a [45, 62] = false)
    (hb : Contains b [45, 62] = false) : Split (a ++ 45 :: 62 :: b) [45, 62] = [a, b] := by
  unfold Split
  induction a with
  | nil =>
    have hb2 := SplitFrom_of_not_Contains [45, 62] b hb
    simp [SplitFrom, List.isPrefixOf, hb2]
  | cons c rest ih =>
    simp only [Contains, Bool.or_eq_false_iff] at ha
    have hrest := ih ha.2
    have hpre : List.isPrefixOf [45, 62] (c :: (rest ++ 45 :: 62 :: b)) = false := by
      cases rest with
      | nil => simp [List.isPrefixOf]
      | cons d rest2 =>
        have := ha.1
        simp only [List.isPrefixOf, Bool.and_true] at this
        simp only [List.cons_append, List.isPrefixOf, Bool.and_true]
        exact this
    rw [List.cons_append, SplitFrom, hpre, hrest]
    rfl

theorem SplitFrom_space_pieces (s : List Nat) :
    ∀ piece ∈ SplitFrom [32] s 0, 32 ∉ piece := by
  induction s with
  | nil => simp [SplitFrom]
  | cons c rest ih =>
    by_cases hc : c = 32
    · subst hc
      simp only [SplitFrom, List.isPrefixOf, beq_self_eq_true, Bool.and_true, if_true,
        List.length_singleton, Nat.sub_self, List.mem_cons]
      rintro piece (h | h)
      · simp [h]
      · exact ih piece h
    · have hc2 : ¬ (32 : Nat) = c := fun e => hc e.symm
      have hpre : List.isPrefixOf [32] (c :: rest) = false := by
        simp [List.isPrefixOf, hc2]
      simp only [SplitFrom, hpre]
      cases hs : SplitFrom [32] rest 0 with
      | nil => simp [consHead, hc2]
      | cons h t =>
        rw [hs] at ih
        simp only [consHead, List.mem_cons, Bool.false_eq_true, if_false]
        rintro piece (hp | hp)
        · subst hp
          simp only [List.mem_cons, not_or]
          exact ⟨hc2, ih h (List.mem_cons_self _ _)⟩
        · exact ih piece (List.mem_cons_of_mem _ hp)

theorem parseLine_tokens (line : List Nat) (p : ReversePolicy) (h : parseLine line = some p) :
    ∃ sp1, Split line (bytes " ") = [p.Proto, sp1] ∧ Split sp1 (bytes "->") = [p.From, p.To] := by
  unfold parseLine at h
  split_ifs at h
  split at h
  · rename_i q sp1 heq
    split at h
    · rename_i f t heq2
      simp only [Option.some.injEq] at h
      subst h
      exact ⟨sp1, heq, heq2⟩
    · exact absurd h (by simp)
  · exact absurd h (by simp)

theorem parseLine_Proto (line : List Nat) (p : ReversePolicy) (h : parseLine line = some p) :
    32 ∉ p.Proto := by
  obtain ⟨sp1, hsplit, _⟩ := parseLine_tokens line p h
  have hb : bytes " " = [32] := by decide
  rw [hb] at hsplit
  have hpieces := SplitFrom_space_pieces line
  unfold Split at hsplit
  exact hpieces p.Proto (by rw [hsplit]; exact List.mem_cons_self _ _)

theorem loadLoop_eq_readLines (fuel : Nat) : ∀ (r : List Nat) (acc : List ReversePolicy),
    r.length < fuel →
    loadLoop fuel r acc = some (acc ++ (readLines fuel r).filterMap parseLine) := by
  induction fuel with
  | zero => intro r acc h; omega
  | succ n ih =>
    intro r acc h
    cases hr : ReadLine r with
    | none =>
      rw [loadLoop_eof n r acc hr]
      simp [readLines, hr]
    | some lr =>
      obtain ⟨line, rest⟩ := lr
      have hlt := ReadLine_length_lt r line rest hr
      have hn : rest.length < n := by omega
      have hlines : readLines (n + 1) r = line :: readLines n rest := by
        simp only [readLines, hr]
      cases hp : parseLine line with
      | none =>
        rw [loadLoop_skip n r line rest acc hr hp, ih rest acc hn, hlines]
        simp [List.filterMap_cons, hp]
      | some q =>
        rw [loadLoop_keep n r line rest acc q hr hp, ih rest _ hn, hlines]
        simp [List.filterMap_cons, hp]

/-- The policies are parsed, in order, from the lines that `ReadLine` returns. -/
theorem policiesOf_eq_linesOf (content : List Nat) :
    policiesOf content = (linesOf content).filterMap parseLine := by
  have h1 := loadLoop_eq_policiesOf (content.length + 1) content (by omega)
  have h2 := loadLoop_eq_readLines (content.length + 1) content [] (by omega)
  rw [h1] at h2
  simp only [Option.some.injEq, List.nil_append] at h2
  exact h2

theorem ReadLine_prefix_suffix (r line rest : List Nat) (h : ReadLine r = some (line, rest)) :
    line <+: r ∧ rest <:+ r := by
  cases r with
  | nil => simp [ReadLine] at h
  | cons b r1 =>
    simp only [ReadLine] at h
    split_ifs at h with h1 h2
    · split at h
      · simp only [Option.some.injEq, Prod.mk.injEq] at h
        rw [← h.1, ← h.2]
        exact ⟨List.takeWhile_prefix _, List.nil_suffix⟩
      · rename_i x rest1 heq
        simp only [Option.some.injEq, Prod.mk.injEq] at h
        rw [← h.1, ← h.2]
        refine ⟨?_, ?_⟩
        · have hp : (List.takeWhile (fun b => b != 10) (b :: r1)) <+: b :: r1 :=
            List.takeWhile_prefix _
          unfold dropCR
          split_ifs
          · exact (List.dropLast_prefix _).trans hp
          · exact hp
        · have hs : (List.dropWhile (fun b => b != 10) (b :: r1)) <:+ b :: r1 :=
            List.dropWhile_suffix _
          rw [heq] at hs
          exact (List.suffix_cons x rest1).trans hs
    · simp only [Option.some.injEq, Prod.mk.injEq] at h
      rw [← h.1, ← h.2]
      exact ⟨(List.dropLast_prefix _).trans (List.take_prefix _ _), List.drop_suffix _ _⟩
    · simp only [Option.some.injEq, Prod.mk.injEq] at h
      rw [← h.1, ← h.2]
      exact ⟨List.take_prefix _ _, List.drop_suffix _ _⟩

/-- Every line that `ReadLine` returns is a piece of the input. -/
theorem readLines_infix (fuel : Nat) : ∀ (r : List Nat), ∀ line ∈ readLines fuel r,
    line <:+: r := by
  induction fuel with
  | zero => intro r line h; simp [readLines] at h
  | succ n ih =>
    intro r line h
    cases hr : ReadLine r with
    | none => simp [readLines, hr] at h
    | some lr =>
      obtain ⟨l, rest⟩ := lr
      obtain ⟨hpre, hsuf⟩ := ReadLine_prefix_suffix r l rest hr
      simp only [readLines, hr, List.mem_cons] at h
      rcases h with h | h
      · rw [h]
        exact hpre.isInfix
      · exact (ih rest line h).trans hsuf.isInfix

theorem Proxy_of_tcp (net : Net) (prot from_ to_ : List Nat) (h : ToLower prot = bytes "tcp") :
    Proxy net prot from_ to_ = if net.Listen from_ then [Listener.tcp from_ to_] else [] := by
  have h2 : ¬ bytes "tcp" = bytes "udp" := by decide
  simp [Proxy, ProxyTCP, h, h2]

theorem Proxy_of_udp (net : Net) (prot from_ to_ : List Nat) (h : ToLower prot = bytes "udp") :
    Proxy net prot from_ to_ =
      if net.ResolveUDPAddr from_ ∧ net.ListenUDP from_ then [Listener.udp from_ to_]
      else [] := by
  have h2 : ¬ bytes "udp" = bytes "tcp" := by decide
  simp only [Proxy, ProxyUDP, h, h2, if_false, if_true, List.nil_append]
  cases net.ResolveUDPAddr from_ <;> cases net.ListenUDP from_ <;> simp

theorem Proxy_of_other (net : Net) (prot from_ to_ : List Nat)
    (h1 : ToLower prot ≠ bytes "tcp") (h2 : ToLower prot ≠ bytes "udp") :
    Proxy net prot from_ to_ = [] := by
  simp [Proxy, h1, h2]

/-- C9, as stated, fails: the rule `foo a->b` is loaded as a policy with protocol `foo`, for
which `Proxy` starts no listener, whatever addresses can be bound. -/
theorem LoadReversePolicy_keeps_unknown_protocol :
    LoadReversePolicy (some (bytes "foo a->b\n")) =
      .ok [{ Proto := bytes "foo", From := bytes "a", To := bytes "b" }] ∧
    bytes "foo" ≠ bytes "tcp" ∧ bytes "foo" ≠ bytes "udp" ∧
    ∀ net : Net, Proxy net (bytes "foo") (bytes "a") (bytes "b") = [] := by
  refine ⟨by decide, by decide, by decide, fun net => ?_⟩
  exact Proxy_of_other net _ _ _ (by decide) (by decide)

/-- C9, amended: the policies returned by `LoadReversePolicy` are those parsed, in order,
from the lines that `ReadLine` returns on the file. The protocol of a policy is the first of
the two space-separated tokens of such a line, a piece of the file, the second of which
splits on `->` into `From` and `To`; it has no space and is not compared with `tcp` or
`udp`. For a loaded policy whose protocol is `tcp` in lower case `Proxy` starts one TCP
listener when `net.Listen` succeeds; for one whose protocol is `udp` in lower case it starts
one UDP listener when `net.ResolveUDPAddr` and `net.ListenUDP` succeed; for a policy with
any other protocol, and when these calls fail, it starts no listener; and the listeners
that `NewReverse` starts are those of its policies. -/
theorem LoadReversePolicy_protocol_unchecked (net : Net) (file : Option (List Nat))
    (policy : List ReversePolicy) (hload : LoadReversePolicy file = .ok policy) :
    (∃ content, file = some content ∧ policy = (linesOf content).filterMap parseLine ∧
      ∀ p ∈ policy, ∃ line ∈ linesOf content, line <:+: content ∧ parseLine line = some p ∧
        ∃ sp1, Split line (bytes " ") = [p.Proto, sp1] ∧
          Split sp1 (bytes "->") = [p.From, p.To]) ∧
    (∀ p ∈ policy, 32 ∉ p.Proto) ∧
    NewReverse net file =
      .ok (policy, policy.flatMap (fun p => Proxy net p.Proto p.From p.To)) ∧
    (∀ p ∈ policy, ToLower p.Proto = bytes "tcp" →
      Proxy net p.Proto p.From p.To =
        if net.Listen p.From then [Listener.tcp p.From p.To] else []) ∧
    (∀ p ∈ policy, ToLower p.Proto = bytes "udp" →
      Proxy net p.Proto p.From p.To =
        if net.ResolveUDPAddr p.From ∧ net.ListenUDP p.From then [Listener.udp p.From p.To]
        else []) ∧
    (∀ p ∈ policy, ToLower p.Proto ≠ bytes "tcp" → ToLower p.Proto ≠ bytes "udp" →
      Proxy net p.Proto p.From p.To = []) := by
  cases file with
  | none => simp [LoadReversePolicy] at hload
  | some content =>
    have hnew : NewReverse net (some content) =
        .ok (policy, policy.flatMap (fun p => Proxy net p.Proto p.From p.To)) := by
      simp only [NewReverse, hload]
    rw [LoadReversePolicy_eq] at hload
    simp only [Except.ok.injEq] at hload
    have hpol : policy = (linesOf content).filterMap parseLine := by
      rw [← hload]
      exact policiesOf_eq_linesOf content
    have hlines : ∀ p ∈ policy, ∃ line ∈ linesOf content, parseLine line = some p := by
      intro p hp
      rw [hpol] at hp
      exact List.mem_filterMap.mp hp
    refine ⟨⟨content, rfl, hpol, ?_⟩, ?_, hnew, ?_, ?_, ?_⟩
    · intro p hp
      obtain ⟨line, hmem, hparse⟩ := hlines p hp
      obtain ⟨sp1, h1, h2⟩ := parseLine_tokens line p hparse
      exact ⟨line, hmem, readLines_infix _ content line hmem, hparse, sp1, h1, h2⟩
    · intro p hp
      obtain ⟨line, _, hparse⟩ := hlines p hp
      exact parseLine_Proto line p hparse
    · intro p _ h
      exact Proxy_of_tcp net _ _ _ h
    · intro p _ h
      exact Proxy_of_udp net _ _ _ h
    · intro p _ h1 h2
      exact Proxy_of_other net _ _ _ h1 h2

/-- C9, amended, at the rule file of the two lines `# proxy rules` and
`udp 127.0.0.1:5300->8.8.8.8:53`, with a net in which the UDP address can be bound. -/
theorem LoadReversePolicy_protocol_unchecked_witness :
    LoadReversePolicy (some (bytes "# proxy rules\nudp 127.0.0.1:5300->8.8.8.8:53\n")) =
      .ok [{ Proto := bytes "udp", From := bytes "127.0.0.1:5300", To := bytes "8.8.8.8:53" }] ∧
    Proxy { Listen := fun _ => false, ResolveUDPAddr := fun _ => true, ListenUDP := fun _ => true }
        (bytes "udp") (bytes "127.0.0.1:5300") (bytes "8.8.8.8:53") =
      [Listener.udp (bytes "127.0.0.1:5300") (bytes "8.8.8.8:53")] :=
  ⟨by decide,
   (LoadReversePolicy_protocol_unchecked
      { Listen := fun _ => false, ResolveUDPAddr := fun _ => true, ListenUDP := fun _ => true }
      (some (bytes "# proxy rules\nudp 127.0.0.1:5300->8.8.8.8:53\n"))
      [{ Proto := bytes "udp", From := bytes "127.0.0.1:5300", To := bytes "8.8.8.8:53" }]
      (by decide)).2.2.2.2.1
      { Proto := bytes "udp", From := bytes "127.0.0.1:5300", To := bytes "8.8.8.8:53" }
      (List.mem_singleton.mpr rfl) (by decide)⟩

end gtund

namespace gtund

theorem ReadLine_of_ne_nil (r : List Nat) (h : r ≠ []) :
    ReadLine r =
      if (r.takeWhile (fun b => b != 10)).length < defaultBufSize then
        match r.dropWhile (fun b => b != 10) with
        | [] => some (r.takeWhile (fun b => b != 10), [])
        | _ :: rest => some (dropCR (r.takeWhile (fun b => b != 10)), rest)
      else
        if (r.take defaultBufSize).getLast? = some 13 then
          some ((r.take defaultBufSize).dropLast, r.drop (defaultBufSize - 1))
        else some (r.take defaultBufSize, r.drop defaultBufSize) := by
  cases r with
  | nil => exact absurd rfl h
  | cons b r1 => rfl

theorem takeWhile_line (l rest : List Nat) (h : 10 ∉ l) :
    (l ++ 10 :: rest).takeWhile (fun b => b != 10) = l := by
  have hall : ∀ a ∈ l, (fun b : Nat => b != 10) a = true := by
    intro a ha
    have : a ≠ 10 := fun e => h (e ▸ ha)
    simpa using this
  rw [List.takeWhile_append_of_pos hall]
  simp

theorem dropWhile_line (l rest : List Nat) (h : 10 ∉ l) :
    (l ++ 10 :: rest).dropWhile (fun b => b != 10) = 10 :: rest := by
  have hall : ∀ a ∈ l, (fun b : Nat => b != 10) a = true := by
    intro a ha
    have : a ≠ 10 := fun e => h (e ▸ ha)
    simpa using this
  rw [List.dropWhile_append_of_pos hall]
  simp

theorem takeWhile_all (l : List Nat) (h : 10 ∉ l) :
    l.takeWhile (fun b => b != 10) = l := by
  refine List.takeWhile_eq_self_iff.mpr ?_
  intro a ha
  have : a ≠ 10 := fun e => h (e ▸ ha)
  simpa using this

theorem dropWhile_all (l : List Nat) (h : 10 ∉ l) :
    l.dropWhile (fun b => b != 10) = [] := by
  have h1 := List.takeWhile_append_dropWhile (fun b => b != 10) l
  rw [takeWhile_all l h] at h1
  simpa using h1

theorem dropCR_of_not_mem (l : List Nat) (h : 13 ∉ l) : dropCR l = l := by
  unfold dropCR
  have : l.getLast? ≠ some 13 := fun e => h (List.mem_of_getLast?_eq_some e)
  simp [this]

/-- A line of fewer bytes than the buffer holds, followed by a line feed, is read whole. -/
theorem ReadLine_line (l rest : List Nat) (h10 : 10 ∉ l) (hlen : l.length < defaultBufSize) :
    ReadLine (l ++ 10 :: rest) = some (dropCR l, rest) := by
  rw [ReadLine_of_ne_nil _ (by simp), takeWhile_line l rest h10, dropWhile_line l rest h10,
    if_pos hlen]

/-- The last line of a file, of fewer bytes than the buffer holds and without line feed, is
read whole. -/
theorem ReadLine_last (l : List Nat) (hne : l ≠ []) (h10 : 10 ∉ l)
    (hlen : l.length < defaultBufSize) : ReadLine l = some (l, []) := by
  rw [ReadLine_of_ne_nil _ hne, takeWhile_all l h10, dropWhile_all l h10, if_pos hlen]

/-- When the buffer is filled without a line feed its content is returned as a line. -/
theorem ReadLine_full (buf rest : List Nat) (h10 : 10 ∉ buf) (hlen : buf.length = defaultBufSize)
    (hcr : buf.getLast? ≠ some 13) : ReadLine (buf ++ rest) = some (buf, rest) := by
  have hne : buf ≠ [] := by
    intro e
    rw [e] at hlen
    simp [defaultBufSize] at hlen
  have hall : ∀ a ∈ buf, (fun b : Nat => b != 10) a = true := by
    intro a ha
    have : a ≠ 10 := fun e => h10 (e ▸ ha)
    simpa using this
  rw [ReadLine_of_ne_nil _ (by simp [hne]), List.takeWhile_append_of_pos hall]
  have hlong : ¬ (buf ++ List.takeWhile (fun b => b != 10) rest).length < defaultBufSize := by
    simp only [List.length_append]
    omega
  rw [if_neg hlong, List.take_left' hlen, if_neg hcr, List.drop_left' hlen]

theorem policiesOf_nil : policiesOf [] = [] := policiesOf_eof [] rfl

theorem parseLine_rule (proto from_ to_ : List Nat) (hp : 32 ∉ proto) (hf : 32 ∉ from_)
    (ht : 32 ∉ to_) (hfa : Contains from_ [45, 62] = false) (hta : Contains to_ [45, 62] = false)
    (hhash : (proto ++ 32 :: (from_ ++ 45 :: 62 :: to_)).head? ≠ some 35) :
    parseLine (proto ++ 32 :: (from_ ++ 45 :: 62 :: to_)) =
      some { Proto := proto, From := from_, To := to_ } := by
  have hb1 : bytes " " = [32] := by decide
  have hb2 : bytes "->" = [45, 62] := by decide
  have hsecond : 32 ∉ from_ ++ 45 :: 62 :: to_ := by
    simp [hf, ht]
  unfold parseLine
  rw [if_neg hhash, hb1, hb2, Split_at_space proto _ hp hsecond]
  simp only []
  rw [Split_at_arrow from_ to_ hfa hta]

theorem policiesOf_single_rule (line : List Nat) (p : ReversePolicy)
    (hparse : parseLine line = some p) (h10 : 10 ∉ line) (h13 : 13 ∉ line)
    (hlen : line.length ≤ defaultBufSize) :
    policiesOf line = [p] ∧ policiesOf (line ++ [10]) = [p] := by
  have hne : line ≠ [] := by
    intro e
    have hnil : parseLine [] = none := by decide
    rw [e, hnil] at hparse
    cases hparse
  have hcr : line.getLast? ≠ some 13 := fun e => h13 (List.mem_of_getLast?_eq_some e)
  rcases Nat.lt_or_ge line.length defaultBufSize with hlt | hge
  · have r1 := policiesOf_line line line [] (ReadLine_last line hne h10 hlt)
    have r2 := policiesOf_line (line ++ [10]) (dropCR line) [] (ReadLine_line line [] h10 hlt)
    rw [dropCR_of_not_mem line h13] at r2
    rw [r1, r2, hparse, policiesOf_nil]
    simp
  · have heq : line.length = defaultBufSize := Nat.le_antisymm hlen hge
    have r1 := policiesOf_line (line ++ []) line [] (ReadLine_full line [] h10 heq hcr)
    have r2 := policiesOf_line (line ++ [10]) line [10] (ReadLine_full line [10] h10 heq hcr)
    have r3 : policiesOf [10] = [] := by decide
    rw [List.append_nil] at r1
    rw [r1, r2, r3, hparse, policiesOf_nil]
    simp

/-- The rule file of the single line `proto from->to`, with or without a line feed at its end,
when the line has at most as many bytes as the buffer of the reader holds: for `proto`,
`from` and `to` without space, line feed and carriage return, `from` and `to` without `->`,
and a line that does not begin with `#`, `LoadReversePolicy` returns no error and the one
policy of these three fields. -/
theorem LoadReversePolicy_single_rule (proto from_ to_ : List Nat)
    (hp : 32 ∉ proto ∧ 10 ∉ proto ∧ 13 ∉ proto) (hf : 32 ∉ from_ ∧ 10 ∉ from_ ∧ 13 ∉ from_)
    (ht : 32 ∉ to_ ∧ 10 ∉ to_ ∧ 13 ∉ to_) (hfa : Contains from_ (bytes "->") = false)
    (hta : Contains to_ (bytes "->") = false)
    (hhash : (proto ++ bytes " " ++ from_ ++ bytes "->" ++ to_).head? ≠ some 35)
    (hlen : (proto ++ bytes " " ++ from_ ++ bytes "->" ++ to_).length ≤ defaultBufSize) :
    LoadReversePolicy (some (proto ++ bytes " " ++ from_ ++ bytes "->" ++ to_)) =
      .ok [{ Proto := proto, From := from_, To := to_ }] ∧
    LoadReversePolicy (some (proto ++ bytes " " ++ from_ ++ bytes "->" ++ to_ ++ [10])) =
      .ok [{ Proto := proto, From := from_, To := to_ }] := by
  have hb1 : bytes " " = [32] := by decide
  have hb2 : bytes "->" = [45, 62] := by decide
  have hline : proto ++ bytes " " ++ from_ ++ bytes "->" ++ to_ =
      proto ++ 32 :: (from_ ++ 45 :: 62 :: to_) := by
    rw [hb1, hb2]
    simp
  rw [hline] at hhash hlen ⊢
  rw [hb2] at hfa hta
  have hparse := parseLine_rule proto from_ to_ hp.1 hf.1 ht.1 hfa hta hhash
  have h10 : 10 ∉ proto ++ 32 :: (from_ ++ 45 :: 62 :: to_) := by
    simp [hp.2.1, hf.2.1, ht.2.1]
  have h13 : 13 ∉ proto ++ 32 :: (from_ ++ 45 :: 62 :: to_) := by
    simp [hp.2.2, hf.2.2, ht.2.2]
  have hboth := policiesOf_single_rule _ _ hparse h10 h13 hlen
  rw [LoadReversePolicy_eq, LoadReversePolicy_eq, hboth.1, hboth.2]
  exact ⟨rfl, rfl⟩

/-- The rule `tcp 0.0.0.0:8080->10.0.0.5:80` yields the policy of its three fields. -/
theorem LoadReversePolicy_single_rule_witness :
    LoadReversePolicy (some (bytes "tcp 0.0.0.0:8080->10.0.0.5:80")) =
      .ok [{ Proto := bytes "tcp", From := bytes "0.0.0.0:8080", To := bytes "10.0.0.5:80" }] ∧
    LoadReversePolicy (some (bytes "tcp 0.0.0.0:8080->10.0.0.5:80\n")) =
      .ok [{ Proto := bytes "tcp", From := bytes "0.0.0.0:8080", To := bytes "10.0.0.5:80" }] :=
  LoadReversePolicy_single_rule (bytes "tcp") (bytes "0.0.0.0:8080") (bytes "10.0.0.5:80")
    (by decide) (by decide) (by decide) (by decide) (by decide) (by decide) (by decide)

theorem not_mem_replicate_a (n : Nat) (x : Nat) (hx : x ≠ 97) : x ∉ List.replicate n 97 :=
  fun h => hx (List.mem_replicate.mp h).2

theorem parseLine_replicate_a (n : Nat) : parseLine (List.replicate n 97) = none := by
  have hb1 : bytes " " = [32] := by decide
  have hsplit : Split (List.replicate n 97) (bytes " ") = [List.replicate n 97] := by
    rw [hb1]
    exact SplitFrom_of_not_Contains [32] _
      ((Contains_space_iff _).mpr (not_mem_replicate_a n 32 (by decide)))
  unfold parseLine
  rw [hsplit]
  split_ifs <;> rfl

theorem getLast?_replicate_a (n : Nat) : (List.replicate n 97).getLast? ≠ some 13 := by
  intro e
  exact not_mem_replicate_a n 13 (by decide) (List.mem_of_getLast?_eq_some e)

theorem getLast?_hash_replicate_a (n : Nat) :
    (35 :: List.replicate n 97).getLast? ≠ some 13 := by
  intro e
  have hmem := List.mem_of_getLast?_eq_some e
  rcases List.mem_cons.mp hmem with h | h
  · exact absurd h (by decide)
  · exact not_mem_replicate_a n 13 (by decide) h

/-- C1: a rule file whose only line is longer than the buffer of the reader. The line is
4096 times the letter `a`, a space and `b->c`, so `proto` is the 4096 letters, `from` is `b`
and `to` is `c`; `ReadLine` returns the 4096 letters as a first line, which is skipped, and
the rest as a second line: the policy returned has the empty protocol, not `proto`. -/
theorem LoadReversePolicy_long_line :
    LoadReversePolicy (some (List.replicate 4096 97 ++ bytes " " ++ bytes "b" ++ bytes "->" ++
        bytes "c")) =
      .ok [{ Proto := [], From := bytes "b", To := bytes "c" }] ∧
    LoadReversePolicy (some (List.replicate 4096 97 ++ bytes " " ++ bytes "b" ++ bytes "->" ++
        bytes "c")) ≠
      .ok [{ Proto := List.replicate 4096 97, From := bytes "b", To := bytes "c" }] := by
  have hcat : List.replicate 4096 97 ++ bytes " " ++ bytes "b" ++ bytes "->" ++ bytes "c" =
      List.replicate 4096 97 ++ bytes " b->c" := by
    have : bytes " " ++ (bytes "b" ++ (bytes "->" ++ bytes "c")) = bytes " b->c" := by decide
    rw [← this]
    simp only [List.append_assoc]
  have hread : ReadLine (List.replicate 4096 97 ++ bytes " b->c") =
      some (List.replicate 4096 97, bytes " b->c") :=
    ReadLine_full _ _ (not_mem_replicate_a 4096 10 (by decide)) (List.length_replicate _ _)
      (getLast?_replicate_a 4096)
  have hrest : policiesOf (bytes " b->c") =
      [{ Proto := [], From := bytes "b", To := bytes "c" }] := by decide
  have hload : LoadReversePolicy (some (List.replicate 4096 97 ++ bytes " " ++ bytes "b" ++
      bytes "->" ++ bytes "c")) = .ok [{ Proto := [], From := bytes "b", To := bytes "c" }] := by
    rw [hcat, LoadReversePolicy_eq, policiesOf_line _ _ _ hread, parseLine_replicate_a, hrest]
    rfl
  refine ⟨hload, fun h => ?_⟩
  rw [hload] at h
  have h1 := List.head_eq_of_cons_eq (Except.ok.inj h)
  have h2 : ([] : List Nat) = List.replicate 4096 97 := congrArg ReversePolicy.Proto h1
  have h3 := congrArg List.length h2
  rw [List.length_replicate] at h3
  exact absurd h3 (by decide)

/-- C8: a comment line longer than the buffer of the reader, inserted before the first line
of a rule file. The file has the one rule `udp 127.0.0.1:5300->8.8.8.8:53`; the inserted
line begins with `#`, has 4095 times the letter `a` after it and then `tcp a->b`;
`ReadLine` returns its first 4096 bytes as a line, which is skipped, and `tcp a->b` as a line
of its own, and the policies returned have one policy more. -/
theorem LoadReversePolicy_long_comment :
    LoadReversePolicy (some (bytes "udp 127.0.0.1:5300->8.8.8.8:53\n")) =
      .ok [{ Proto := bytes "udp", From := bytes "127.0.0.1:5300", To := bytes "8.8.8.8:53" }] ∧
    (35 :: List.replicate 4095 97 ++ bytes "tcp a->b").head? = some 35 ∧
    10 ∉ 35 :: List.replicate 4095 97 ++ bytes "tcp a->b" ∧
    LoadReversePolicy (some ((35 :: List.replicate 4095 97 ++ bytes "tcp a->b") ++ [10] ++
        bytes "udp 127.0.0.1:5300->8.8.8.8:53\n")) =
      .ok [{ Proto := bytes "tcp", From := bytes "a", To := bytes "b" },
           { Proto := bytes "udp", From := bytes "127.0.0.1:5300", To := bytes "8.8.8.8:53" }] := by
  have hline : 10 ∉ bytes "tcp a->b" := by decide
  have h10 : 10 ∉ 35 :: List.replicate 4095 97 := by
    intro h
    rcases List.mem_cons.mp h with h | h
    · exact absurd h (by decide)
    · exact not_mem_replicate_a 4095 10 (by decide) h
  refine ⟨by decide, rfl, ?_, ?_⟩
  · intro h
    rcases List.mem_append.mp h with h | h
    · exact h10 h
    · exact hline h
  have hcat : (35 :: List.replicate 4095 97 ++ bytes "tcp a->b") ++ [10] ++
      bytes "udp 127.0.0.1:5300->8.8.8.8:53\n" =
      (35 :: List.replicate 4095 97) ++ bytes "tcp a->b\nudp 127.0.0.1:5300->8.8.8.8:53\n" := by
    have : bytes "tcp a->b" ++ ([10] ++ bytes "udp 127.0.0.1:5300->8.8.8.8:53\n") =
        bytes "tcp a->b\nudp 127.0.0.1:5300->8.8.8.8:53\n" := by decide
    rw [← this]
    simp only [List.append_assoc]
  have hlen : (35 :: List.replicate 4095 97).length = defaultBufSize := by
    rw [List.length_cons, List.length_replicate]
    rfl
  have hread : ReadLine ((35 :: List.replicate 4095 97) ++
      bytes "tcp a->b\nudp 127.0.0.1:5300->8.8.8.8:53\n") =
      some (35 :: List.replicate 4095 97, bytes "tcp a->b\nudp 127.0.0.1:5300->8.8.8.8:53\n") :=
    ReadLine_full _ _ h10 hlen (getLast?_hash_replicate_a 4095)
  have hskip : parseLine (35 :: List.replicate 4095 97) = none := by
    have hh : (35 :: List.replicate 4095 97).head? = some 35 := rfl
    unfold parseLine
    rw [if_pos hh]
  have hrest : policiesOf (bytes "tcp a->b\nudp 127.0.0.1:5300->8.8.8.8:53\n") =
      [{ Proto := bytes "tcp", From := bytes "a", To := bytes "b" },
       { Proto := bytes "udp", From := bytes "127.0.0.1:5300", To := bytes "8.8.8.8:53" }] := by
    decide
  rw [hcat, LoadReversePolicy_eq, policiesOf_line _ _ _ hread, hskip, hrest]
  rfl

end gtund

namespace gtund

theorem SplitFrom_ne_nil (sep : List Nat) : ∀ (s : List Nat) (k : Nat), SplitFrom sep s k ≠ [] := by
  intro s
  induction s with
  | nil => intro k; simp [SplitFrom]
  | cons c rest ih =>
    intro k
    cases k with
    | succ j => rw [SplitFrom]; exact ih j
    | zero =>
      rw [SplitFrom]
      split_ifs
      · simp
      · cases h : SplitFrom sep rest 0 with
        | nil => simp [consHead]
        | cons a b => simp [consHead]

theorem isPrefixOf_append_byte (x : Nat) : ∀ (sep t : List Nat), x ∉ sep →
    sep.isPrefixOf (t ++ [x]) = sep.isPrefixOf t := by
  intro sep
  induction sep with
  | nil => intro t _; simp [List.isPrefixOf]
  | cons a sep1 ih =>
    intro t hx
    simp only [List.mem_cons, not_or] at hx
    cases t with
    | nil =>
      have : ¬ a = x := fun e => hx.1 e.symm
      simp [List.isPrefixOf, this]
    | cons b t1 =>
      have := ih t1 hx.2
      simp only [List.cons_append, List.isPrefixOf, List.append_eq, this]

theorem isPrefixOf_length_le : ∀ (sep t : List Nat), sep.isPrefixOf t = true →
    sep.length ≤ t.length := by
  intro sep
  induction sep with
  | nil => intro t _; simp
  | cons a sep1 ih =>
    intro t h
    cases t with
    | nil => simp [List.isPrefixOf] at h
    | cons b t1 =>
      simp only [List.isPrefixOf, Bool.and_eq_true] at h
      have := ih t1 h.2
      simp only [List.length_cons]
      omega

theorem appendToLast_consHead (x c : Nat) (ps : List (List Nat)) (h : ps ≠ []) :
    appendToLast x (consHead c ps) = consHead c (appendToLast x ps) := by
  cases ps with
  | nil => exact absurd rfl h
  | cons a rest =>
    cases rest with
    | nil => simp [consHead, appendToLast]
    | cons b rest2 => simp [consHead, appendToLast]

theorem appendToLast_cons (x : Nat) (a : List Nat) (ps : List (List Nat)) (h : ps ≠ []) :
    appendToLast x (a :: ps) = a :: appendToLast x ps := by
  cases ps with
  | nil => exact absurd rfl h
  | cons b rest => simp [appendToLast]

theorem SplitFrom_cons_zero (sep : List Nat) (c : Nat) (rest : List Nat) :
    SplitFrom sep (c :: rest) 0 =
      if sep.isPrefixOf (c :: rest) then [] :: SplitFrom sep rest (sep.length - 1)
      else consHead c (SplitFrom sep rest 0) := by
  rw [SplitFrom]

theorem SplitFrom_cons_succ (sep : List Nat) (c : Nat) (rest : List Nat) (k : Nat) :
    SplitFrom sep (c :: rest) (k + 1) = SplitFrom sep rest k := by
  rw [SplitFrom]

/-- A byte that is not in the separator, added at the end of the text, goes to the end of
the last piece. -/
theorem SplitFrom_append_byte (sep : List Nat) (x : Nat) (hsep : sep ≠ []) (hx : x ∉ sep) :
    ∀ (s : List Nat) (k : Nat), k ≤ s.length →
      SplitFrom sep (s ++ [x]) k = appendToLast x (SplitFrom sep s k) := by
  intro s
  induction s with
  | nil =>
    intro k hk
    have hk0 : k = 0 := by simpa using hk
    subst hk0
    have hpre : sep.isPrefixOf [x] = false := by
      cases sep with
      | nil => exact absurd rfl hsep
      | cons a sep1 =>
        simp only [List.mem_cons, not_or] at hx
        have : ¬ a = x := fun e => hx.1 e.symm
        simp [List.isPrefixOf, this]
    rw [List.nil_append, SplitFrom_cons_zero, hpre]
    rfl
  | cons c rest ih =>
    intro k hk
    cases k with
    | succ j =>
      simp only [List.length_cons] at hk
      rw [List.cons_append, SplitFrom_cons_succ, SplitFrom_cons_succ]
      exact ih j (by omega)
    | zero =>
      have hpre := isPrefixOf_append_byte x sep (c :: rest) hx
      rw [List.cons_append] at hpre
      rw [List.cons_append, SplitFrom_cons_zero, SplitFrom_cons_zero, hpre]
      by_cases hp : sep.isPrefixOf (c :: rest) = true
      · have hlen := isPrefixOf_length_le sep (c :: rest) hp
        simp only [List.length_cons] at hlen
        rw [if_pos hp, if_pos hp, ih (sep.length - 1) (by omega),
          appendToLast_cons x [] _ (SplitFrom_ne_nil sep rest _)]
      · rw [if_neg hp, if_neg hp, ih 0 (by omega),
          appendToLast_consHead x c _ (SplitFrom_ne_nil sep rest 0)]

theorem Split_append_byte (sep : List Nat) (x : Nat) (hsep : sep ≠ []) (hx : x ∉ sep)
    (s : List Nat) :
    Split (s ++ [x]) sep = appendToLast x (Split s sep) :=
  SplitFrom_append_byte sep x hsep hx s 0 (by omega)

/-- A line that is kept is kept as well with a carriage return at its end. -/
theorem parseLine_append_CR (line : List Nat) (p : ReversePolicy)
    (h : parseLine line = some p) :
    parseLine (line ++ [13]) = some { Proto := p.Proto, From := p.From, To := p.To ++ [13] } := by
  have hb1 : bytes " " = [32] := by decide
  have hb2 : bytes "->" = [45, 62] := by decide
  have hne : line ≠ [] := by
    intro e
    have hnil : parseLine [] = none := by decide
    rw [e, hnil] at h
    cases h
  unfold parseLine at h ⊢
  rw [hb1, hb2] at h ⊢
  split_ifs at h with hhash
  have hhead : (line ++ [13]).head? = line.head? := by
    cases line with
    | nil => exact absurd rfl hne
    | cons a rest => rfl
  rw [hhead, if_neg hhash, Split_append_byte [32] 13 (by decide) (by decide)]
  split at h
  · rename_i q sp1 heq
    rw [heq]
    simp only [appendToLast]
    rw [Split_append_byte [45, 62] 13 (by decide) (by decide)]
    split at h
    · rename_i f t heq2
      rw [heq2]
      simp only [Option.some.injEq] at h
      subst h
      simp [appendToLast]
    · exact absurd h (by simp)
  · exact absurd h (by simp)

theorem parseLine_dropCR (line : List Nat) (h : parseLine line = none) :
    parseLine (dropCR line) = none := by
  unfold dropCR
  split_ifs with hcr
  · obtain ⟨ys, hys⟩ := List.getLast?_eq_some_iff.mp hcr
    rw [hys, List.dropLast_concat]
    cases hp : parseLine ys with
    | none => rfl
    | some p =>
      rw [hys, parseLine_append_CR ys p hp] at h
      cases h
  · exact h

/-- The lines that the four cases of the rule name are those that `parseLine` skips. -/
theorem parseLine_of_Skipped (line : List Nat) (h : Skipped line) : parseLine line = none := by
  unfold parseLine
  rcases h with h | h | h | h
  · rw [h]; decide
  · rw [if_pos h]
  · split_ifs
    · rfl
    · split
      · rename_i q sp1 heq
        rw [heq] at h
        exact absurd rfl h
      · rfl
  · split_ifs
    · rfl
    · split
      · rename_i q sp1 heq
        rw [heq] at h
        split
        · rename_i f t heq2
          have hsp : [q, sp1].getD 1 [] = sp1 := rfl
          rw [hsp, heq2] at h
          exact absurd rfl h
        · rfl
      · rfl

theorem Skipped_of_parseLine (line : List Nat) (h : parseLine line = none) : Skipped line := by
  unfold parseLine at h
  split_ifs at h with hhash
  · exact Or.inr (Or.inl hhash)
  · split at h
    · rename_i q sp1 heq
      split at h
      · cases h
      · rename_i hne
        refine Or.inr (Or.inr (Or.inr ?_))
        rw [heq]
        have hsp : [q, sp1].getD 1 [] = sp1 := rfl
        rw [hsp]
        intro hlen
        match hs : Split sp1 (bytes "->"), hlen with
        | [f, t], _ => exact hne f t hs
    · rename_i hne
      refine Or.inr (Or.inr (Or.inl ?_))
      intro hlen
      match hs : Split line (bytes " "), hlen with
      | [q, sp1], _ => exact hne q sp1 hs

/-- A line longer than the buffer is read in pieces that do not depend on what follows the
line. -/
theorem ReadLine_long (l : List Nat) (h10 : 10 ∉ l) (hlen : defaultBufSize ≤ l.length) :
    ∃ chunk l1, l1.length < l.length ∧ 10 ∉ l1 ∧ (parseLine l = none → l.length ≤ defaultBufSize →
        parseLine chunk = none ∧ (l1 = [] ∨ l1 = [13])) ∧
      ∀ rest, ReadLine (l ++ rest) = some (chunk, l1 ++ rest) := by
  have hne : l ≠ [] := by
    intro e
    rw [e] at hlen
    simp [defaultBufSize] at hlen
  have hall : ∀ a ∈ l, (fun b : Nat => b != 10) a = true := by
    intro a ha
    have : a ≠ 10 := fun e => h10 (e ▸ ha)
    simpa using this
  have hread : ∀ rest, ReadLine (l ++ rest) =
      if (l.take defaultBufSize).getLast? = some 13 then
        some ((l.take defaultBufSize).dropLast, l.drop (defaultBufSize - 1) ++ rest)
      else some (l.take defaultBufSize, l.drop defaultBufSize ++ rest) := by
    intro rest
    rw [ReadLine_of_ne_nil _ (by simp [hne]), List.takeWhile_append_of_pos hall]
    have hlong : ¬ (l ++ List.takeWhile (fun b => b != 10) rest).length < defaultBufSize := by
      simp only [List.length_append]
      omega
    rw [if_neg hlong, List.take_append_of_le_length hlen, List.drop_append_of_le_length hlen,
      List.drop_append_of_le_length (by omega)]
  by_cases hcr : (l.take defaultBufSize).getLast? = some 13
  · refine ⟨(l.take defaultBufSize).dropLast, l.drop (defaultBufSize - 1), ?_, ?_, ?_, ?_⟩
    · simp only [List.length_drop, defaultBufSize] at hlen ⊢
      omega
    · exact fun hm => h10 (List.mem_of_mem_drop hm)
    · intro hskip hle
      have heq : l.length = defaultBufSize := Nat.le_antisymm hle hlen
      have htake : l.take defaultBufSize = l := List.take_of_length_le hle
      rw [htake] at hcr ⊢
      obtain ⟨ys, hys⟩ := List.getLast?_eq_some_iff.mp hcr
      refine ⟨?_, Or.inr ?_⟩
      · have := parseLine_dropCR l hskip
        unfold dropCR at this
        rw [if_pos hcr] at this
        exact this
      · have hylen : ys.length = defaultBufSize - 1 := by
          rw [hys, List.length_append, List.length_singleton] at heq
          omega
        rw [hys, List.drop_left' hylen]
    · intro rest
      rw [hread rest, if_pos hcr]
  · refine ⟨l.take defaultBufSize, l.drop defaultBufSize, ?_, ?_, ?_, ?_⟩
    · simp only [List.length_drop, defaultBufSize] at hlen ⊢
      omega
    · exact fun hm => h10 (List.mem_of_mem_drop hm)
    · intro hskip hle
      have htake : l.take defaultBufSize = l := List.take_of_length_le hle
      rw [htake]
      exact ⟨hskip, Or.inl (List.drop_of_length_le hle)⟩
    · intro rest
      rw [hread rest, if_neg hcr]

/-- The policies of a line and of what follows it are collected one after the other. -/
theorem policiesOf_line_append (n : Nat) : ∀ (l : List Nat), l.length ≤ n → 10 ∉ l →
    ∀ rest, policiesOf (l ++ 10 :: rest) = policiesOf (l ++ [10]) ++ policiesOf rest := by
  induction n with
  | zero =>
    intro l hl h10 rest
    have hnil : l = [] := List.length_eq_zero.mp (by omega)
    subst hnil
    have r1 := policiesOf_line ([] ++ 10 :: rest) _ _
      (ReadLine_line [] rest (by simp) (by simp [defaultBufSize]))
    have r2 := policiesOf_line ([] ++ [10]) _ _
      (ReadLine_line [] [] (by simp) (by simp [defaultBufSize]))
    rw [r1, r2, policiesOf_nil]
    simp
  | succ m ih =>
    intro l hl h10 rest
    rcases Nat.lt_or_ge l.length defaultBufSize with hlt | hge
    · have r1 := policiesOf_line _ _ _ (ReadLine_line l rest h10 hlt)
      have r2 := policiesOf_line _ _ _ (ReadLine_line l [] h10 hlt)
      rw [r1, r2, policiesOf_nil]
      simp
    · obtain ⟨chunk, l1, hl1, h101, _, hread⟩ := ReadLine_long l h10 hge
      have r1 := policiesOf_line _ _ _ (hread (10 :: rest))
      have r2 := policiesOf_line _ _ _ (hread [10])
      rw [r1, r2, ih l1 (by omega) h101 rest]
      simp

theorem policiesOf_joinLines_append (pre : List (List Nat)) (hpre : ∀ l ∈ pre, 10 ∉ l)
    (rest : List Nat) :
    policiesOf (joinLines pre ++ rest) = policiesOf (joinLines pre) ++ policiesOf rest := by
  induction pre with
  | nil => simp [joinLines, policiesOf_nil]
  | cons l ls ih =>
    have h10 : 10 ∉ l := hpre l (List.mem_cons_self _ _)
    have hls : ∀ x ∈ ls, 10 ∉ x := fun x hx => hpre x (List.mem_cons_of_mem _ hx)
    have e1 : joinLines (l :: ls) ++ rest = l ++ 10 :: (joinLines ls ++ rest) := by
      simp [joinLines]
    have e2 : joinLines (l :: ls) = l ++ 10 :: joinLines ls := by
      simp [joinLines]
    rw [e1, e2, policiesOf_line_append _ l (Nat.le_refl _) h10,
      policiesOf_line_append _ l (Nat.le_refl _) h10 (joinLines ls), ih hls]
    simp

/-- A skipped line of at most as many bytes as the buffer holds yields no policy. -/
theorem policiesOf_skipped_line (line : List Nat) (h10 : 10 ∉ line)
    (hlen : line.length ≤ defaultBufSize) (hskip : parseLine line = none) :
    policiesOf (line ++ [10]) = [] := by
  rcases Nat.lt_or_ge line.length defaultBufSize with hlt | hge
  · rw [policiesOf_line _ _ _ (ReadLine_line line [] h10 hlt), parseLine_dropCR line hskip,
      policiesOf_nil]
    rfl
  · obtain ⟨chunk, l1, _, _, hchunk, hread⟩ := ReadLine_long line h10 hge
    obtain ⟨hc, hl1⟩ := hchunk hskip hlen
    rw [policiesOf_line _ _ _ (hread [10]), hc]
    rcases hl1 with e | e
    · rw [e]
      decide
    · rw [e]
      decide

/-- The rule file with a skipped line inserted at the start of a line, when the inserted
line has at most as many bytes as the buffer of the reader holds: `pre` are the lines
before the place, each ended by a line feed, and `rest` is the file from the place on.
`LoadReversePolicy` returns the same policies in the same order, and no error. -/
theorem LoadReversePolicy_insert_skipped (pre : List (List Nat)) (line rest : List Nat)
    (hpre : ∀ l ∈ pre, 10 ∉ l) (h10 : 10 ∉ line) (hlen : line.length ≤ defaultBufSize)
    (hskip : Skipped line) :
    LoadReversePolicy (some (joinLines pre ++ (line ++ 10 :: rest))) =
      LoadReversePolicy (some (joinLines pre ++ rest)) ∧
    ∃ policy, LoadReversePolicy (some (joinLines pre ++ (line ++ 10 :: rest))) = .ok policy := by
  have hnone := parseLine_of_Skipped line hskip
  rw [LoadReversePolicy_eq, LoadReversePolicy_eq, policiesOf_joinLines_append pre hpre,
    policiesOf_joinLines_append pre hpre, policiesOf_line_append _ line (Nat.le_refl _) h10,
    policiesOf_skipped_line line h10 hlen hnone]
  exact ⟨rfl, _, rfl⟩

/-- The comment line `# comment` inserted between two rules. -/
theorem LoadReversePolicy_insert_skipped_witness :
    LoadReversePolicy (some (joinLines [bytes "tcp 0.0.0.0:8080->10.0.0.5:80"] ++
        (bytes "# comment" ++ 10 :: bytes "udp 127.0.0.1:5300->8.8.8.8:53\n"))) =
      LoadReversePolicy (some (joinLines [bytes "tcp 0.0.0.0:8080->10.0.0.5:80"] ++
        bytes "udp 127.0.0.1:5300->8.8.8.8:53\n")) ∧
    ∃ policy, LoadReversePolicy (some (joinLines [bytes "tcp 0.0.0.0:8080->10.0.0.5:80"] ++
        (bytes "# comment" ++ 10 :: bytes "udp 127.0.0.1:5300->8.8.8.8:53\n"))) = .ok policy :=
  LoadReversePolicy_insert_skipped [bytes "tcp 0.0.0.0:8080->10.0.0.5:80"] (bytes "# comment")
    (bytes "udp 127.0.0.1:5300->8.8.8.8:53\n") (by decide) (by decide) (by decide)
    (by decide)

end gtund

/-! ## gtund/reverse.go: properties of the relay engine -/

namespace gtund

theorem Relay.OpenUntilBothDone_step (s t : Relay) (a : RelayStep) (hs : s.OpenUntilBothDone)
    (ht : s.step a = some t) : t.OpenUntilBothDone := by
  obtain ⟨h1, h2⟩ := hs
  cases a <;> simp only [Relay.step] at ht <;> split_ifs at ht <;>
    simp only [Option.some.injEq, reduceCtorEq] at ht <;> subst ht <;>
    simp_all [Relay.OpenUntilBothDone]

theorem Relay.OpenUntilBothDone_exec (steps : List RelayStep) (s t : Relay)
    (hs : s.OpenUntilBothDone) (ht : s.exec steps = some t) : t.OpenUntilBothDone := by
  induction steps generalizing s with
  | nil =>
    simp only [Relay.exec, Option.some.injEq] at ht
    exact ht ▸ hs
  | cons a rest ih =>
    simp only [Relay.exec] at ht
    cases h : s.step a with
    | none => simp [h] at ht
    | some u =>
      rw [h] at ht
      exact ih u (Relay.OpenUntilBothDone_step s u a hs h) ht

/-- C5, as stated, fails: the client stream ends at once and the upstream stays silent. After
the dial and the end of `Copy(rconn, clientconn)` that direction has stopped, the other is
still running, both streams are open, the caller is in `wg.Wait()`, and no step can be
taken. -/
theorem reverse_waits_with_streams_open :
    (Relay.init [.readFail] []).exec [.dial true, .upEnds] =
      some { pc := .waiting, dialed := true, upRounds := [.readFail], upRunning := false,
             upDone := true, downRounds := [], downRunning := true, downDone := false,
             clientOpen := true, rconnOpen := true } ∧
    ∀ a : RelayStep,
      Relay.step { pc := .waiting, dialed := true, upRounds := [.readFail], upRunning := false,
                   upDone := true, downRounds := [], downRunning := true, downDone := false,
                   clientOpen := true, rconnOpen := true } a = none := by
  refine ⟨by decide, fun a => ?_⟩
  cases a with
  | dial ok => cases ok <;> decide
  | upEnds => decide
  | downEnds => decide
  | waitReturns => decide
  | closeRconn => decide
  | closeClient => decide

/-- C5, amended: in every execution of `reverse`, after a successful dial, as long as one of
the two directions has not terminated the caller waits and both streams are open; and once
both have terminated the caller leaves `wg.Wait()`, closes both streams and returns. -/
theorem reverse_closes_after_both_directions (up down : List Round) (steps : List RelayStep)
    (s : Relay) (hs : (Relay.init up down).exec steps = some s) :
    (s.dialed = true → (s.upDone = false ∨ s.downDone = false) →
      s.pc = .waiting ∧ s.clientOpen = true ∧ s.rconnOpen = true) ∧
    (s.pc = .waiting → s.upDone = true → s.downDone = true →
      s.exec [.waitReturns, .closeRconn, .closeClient] =
        some { s with pc := .returned, clientOpen := false, rconnOpen := false }) := by
  have hinit : (Relay.init up down).OpenUntilBothDone := by
    simp [Relay.OpenUntilBothDone, Relay.init]
  refine ⟨(Relay.OpenUntilBothDone_exec steps _ s hinit hs).2, ?_⟩
  intro h1 h2 h3
  simp [Relay.exec, Relay.step, h1, h2, h3]

/-- C5, amended, at a client stream that ends at once and an upstream that then ends too. -/
theorem reverse_closes_after_both_directions_witness :
    (Relay.init [.readFail] [.readFail]).exec [.dial true, .upEnds, .downEnds] =
      some { pc := .waiting, dialed := true, upRounds := [.readFail], upRunning := false,
             upDone := true, downRounds := [.readFail], downRunning := false, downDone := true,
             clientOpen := true, rconnOpen := true } ∧
    Relay.exec { pc := .waiting, dialed := true, upRounds := [.readFail], upRunning := false,
                 upDone := true, downRounds := [.readFail], downRunning := false,
                 downDone := true, clientOpen := true, rconnOpen := true }
        [.waitReturns, .closeRconn, .closeClient] =
      some { pc := .returned, dialed := true, upRounds := [.readFail], upRunning := false,
             upDone := true, downRounds := [.readFail], downRunning := false, downDone := true,
             clientOpen := false, rconnOpen := false } :=
  ⟨by decide,
   (reverse_closes_after_both_directions [.readFail] [.readFail]
      [.dial true, .upEnds, .downEnds] _ (by decide)).2 rfl rfl rfl⟩

end gtund

/-! ## god/registry/gtun.go: properties -/

namespace registry

theorem checkAuthLoop_eq_true_iff (regInfo : C2GRegister) (tokens : List String) :
    checkAuthLoop regInfo tokens = true ↔ regInfo.AuthToken ∈ tokens := by
  induction tokens with
  | nil => simp [checkAuthLoop]
  | cons token rest ih =>
    by_cases h : token = regInfo.AuthToken
    · simp [checkAuthLoop, h]
    · have h2 : ¬ regInfo.AuthToken = token := fun e => h e.symm
      simp [checkAuthLoop, h, h2, ih]

/-- C2: `checkAuth` returns true exactly when the token of the request is equal to one of the
configured tokens; and for a decoded request whose token is not among them `onGtunAccess`
writes the response with null data and the error "auth fail" and makes no call of the node
selector. -/
theorem checkAuth_exact_and_reject (g : gtun) (GetAvailableGtund : Bool → Except String GtundInfo)
    (regInfo : C2GRegister) :
    (g.checkAuth regInfo = true ↔ regInfo.AuthToken ∈ g.tokens) ∧
    (regInfo.AuthToken ∉ g.tokens →
      g.onGtunAccess GetAvailableGtund (.decoded regInfo) =
        { written := some { data := none, error := some "auth fail" }, selectorCalls := [] }) := by
  have hiff : g.checkAuth regInfo = true ↔ regInfo.AuthToken ∈ g.tokens :=
    checkAuthLoop_eq_true_iff regInfo g.tokens
  refine ⟨hiff, fun hnot => ?_⟩
  have hfalse : g.checkAuth regInfo = false := by
    cases hc : g.checkAuth regInfo with
    | false => rfl
    | true => exact absurd (hiff.mp hc) hnot
  simp [gtun.onGtunAccess, hfalse, Response]

/-- C2, at the tokens `["abcdefg"]` and the token `"unknown"`. -/
theorem checkAuth_exact_and_reject_witness :
    "unknown" ∉ ["abcdefg"] ∧
    (gtun.onGtunAccess { listener := ":2002", tokens := ["abcdefg"] }
        (fun _ => .ok { PublicIP := "1.2.3.4", Port := 9000 })
        (.decoded { AuthToken := "unknown", IsWindows := false })) =
      { written := some { data := none, error := some "auth fail" }, selectorCalls := [] } :=
  ⟨by decide,
   (checkAuth_exact_and_reject { listener := ":2002", tokens := ["abcdefg"] }
      (fun _ => .ok { PublicIP := "1.2.3.4", Port := 9000 })
      { AuthToken := "unknown", IsWindows := false }).2 (by decide)⟩

/-- C3: for a decoded request whose token is among the configured tokens, when the node
selector, called with the `IsWindows` flag of the request, returns a node with address `ip`
and port `p`, `onGtunAccess` calls the selector once, with that flag, and writes a response
without error whose data has the server address `ip`, a colon and the decimal form of `p`;
the `Access` call of a discovery client that receives it yields that address and no error. -/
theorem onGtunAccess_serves_address (g : gtun)
    (GetAvailableGtund : Bool → Except String GtundInfo) (regInfo : C2GRegister)
    (ip : String) (p : Int) (hauth : regInfo.AuthToken ∈ g.tokens)
    (hnode : GetAvailableGtund regInfo.IsWindows = .ok { PublicIP := ip, Port := p }) :
    g.onGtunAccess GetAvailableGtund (.decoded regInfo) =
      { written := some { data := some { ServerAddress := ip ++ ":" ++ toString p },
                          error := none },
        selectorCalls := [regInfo.IsWindows] } ∧
    Access (g.onGtunAccess GetAvailableGtund (.decoded regInfo)).written =
      (ip ++ ":" ++ toString p, none) := by
  have hc : g.checkAuth regInfo = true := (checkAuthLoop_eq_true_iff regInfo g.tokens).mpr hauth
  have h1 : g.onGtunAccess GetAvailableGtund (.decoded regInfo) =
      { written := some { data := some { ServerAddress := ip ++ ":" ++ toString p },
                          error := none },
        selectorCalls := [regInfo.IsWindows] } := by
    simp [gtun.onGtunAccess, hc, hnode, Response, addressOf]
  refine ⟨h1, ?_⟩
  rw [h1]
  rfl

/-- C3, at the token `"abcdefg"` and the node `1.2.3.4` with port `9000`. -/
theorem onGtunAccess_serves_address_witness :
    (gtun.onGtunAccess { listener := ":2002", tokens := ["abcdefg"] }
        (fun _ => .ok { PublicIP := "1.2.3.4", Port := 9000 })
        (.decoded { AuthToken := "abcdefg", IsWindows := false })) =
      { written := some { data := some { ServerAddress := "1.2.3.4:9000" }, error := none },
        selectorCalls := [false] } ∧
    Access (gtun.onGtunAccess { listener := ":2002", tokens := ["abcdefg"] }
        (fun _ => .ok { PublicIP := "1.2.3.4", Port := 9000 })
        (.decoded { AuthToken := "abcdefg", IsWindows := false })).written =
      ("1.2.3.4:9000", none) :=
  onGtunAccess_serves_address { listener := ":2002", tokens := ["abcdefg"] }
    (fun _ => .ok { PublicIP := "1.2.3.4", Port := 9000 })
    { AuthToken := "abcdefg", IsWindows := false } "1.2.3.4" 9000 (by decide) rfl

end registry

/-! ## gtun/client.go: properties of `rcv` -/

namespace gtun

theorem rcv_at_failure (hb data : Nat) (pre post : List Decoded) (hpre : Decoded.fail ∉ pre) :
    rcv hb data (pre ++ Decoded.fail :: post) =
      rcv hb data pre ++ [.logDecodeFail, .connClose, .wgDone] := by
  induction pre with
  | nil => simp [rcv]
  | cons f rest ih =>
    cases f with
    | fail => simp at hpre
    | frame cmd pkt =>
      have hrest : Decoded.fail ∉ rest := fun h => hpre (List.mem_cons_of_mem _ h)
      simp [rcv, ih hrest]

theorem ifceWrites_append (xs ys : List RcvEvent) :
    ifceWrites (xs ++ ys) = ifceWrites xs ++ ifceWrites ys := by
  induction xs with
  | nil => rfl
  | cons e rest ih => cases e <;> simp [ifceWrites, ih]

/-- C10: whatever the successive calls of `common.Decode` return, `rcv` writes to the
interface the payloads of the `C2C_DATA` frames that come before the first decode failure,
once each and in their order of arrival; a frame with another command, `S2C_HEARTBEAT`
included, causes no write; and at the first decode failure `rcv` closes the socket and
ends, whatever follows. -/
theorem rcv_writes_data_until_failure (S2C_HEARTBEAT C2C_DATA : Nat)
    (hcmd : S2C_HEARTBEAT ≠ C2C_DATA) (frames : List Decoded) :
    ifceWrites (rcv S2C_HEARTBEAT C2C_DATA frames) = payloadsOf C2C_DATA (beforeFailure frames) ∧
    (∀ cmd pkt, cmd ≠ C2C_DATA →
      ifceWrites (rcv S2C_HEARTBEAT C2C_DATA [Decoded.frame cmd pkt]) = []) ∧
    (∀ pre post, frames = pre ++ Decoded.fail :: post → Decoded.fail ∉ pre →
      rcv S2C_HEARTBEAT C2C_DATA frames =
        rcv S2C_HEARTBEAT C2C_DATA pre ++ [.logDecodeFail, .connClose, .wgDone] ∧
      RcvEvent.connClose ∉ rcv S2C_HEARTBEAT C2C_DATA pre) := by
  refine ⟨?_, ?_, ?_⟩
  · induction frames with
    | nil => rfl
    | cons f rest ih =>
      cases f with
      | fail => rfl
      | frame cmd pkt =>
        by_cases h1 : cmd = S2C_HEARTBEAT
        · have h2 : ¬ cmd = C2C_DATA := fun e => hcmd (h1.symm.trans e)
          simp [rcv, h1, ifceWrites, beforeFailure, payloadsOf, ih, hcmd]
        · by_cases h2 : cmd = C2C_DATA
          · subst h2
            simp [rcv, h1, ifceWrites, beforeFailure, payloadsOf, ih, ifceWrites_append]
          · simp [rcv, h1, h2, ifceWrites, beforeFailure, payloadsOf, ih, ifceWrites_append]
  · intro cmd pkt hne
    by_cases h1 : cmd = S2C_HEARTBEAT
    · simp [rcv, h1, ifceWrites]
    · simp [rcv, h1, hne, ifceWrites]
  · intro pre post hfr hpre
    subst hfr
    refine ⟨rcv_at_failure _ _ pre post hpre, ?_⟩
    clear hcmd
    induction pre with
    | nil => simp [rcv]
    | cons f rest ih =>
      cases f with
      | fail => simp at hpre
      | frame cmd pkt =>
        have hrest : Decoded.fail ∉ rest := fun h => hpre (List.mem_cons_of_mem _ h)
        have := ih hrest
        by_cases h1 : cmd = S2C_HEARTBEAT
        · simp [rcv, h1, this]
        · by_cases h2 : cmd = C2C_DATA
          · subst h2
            simp [rcv, h1, this]
          · simp [rcv, h1, h2, this]

/-- C10, at heartbeat command 2, data command 5 and six decode results. -/
theorem rcv_writes_data_until_failure_witness :
    (2 : Nat) ≠ 5 ∧
    ifceWrites (rcv 2 5 [.frame 5 [1], .frame 2 [9], .frame 7 [3], .frame 5 [4], .fail,
      .frame 5 [6]]) = [[1], [4]] :=
  ⟨by decide,
   (rcv_writes_data_until_failure 2 5 (by decide)
      [.frame 5 [1], .frame 2 [9], .frame 7 [3], .frame 5 [4], .fail, .frame 5 [6]]).1⟩

end gtun

/-! ## gtun/client.go: properties of the tasks of the Active state -/

namespace gtun

theorem Active.Closed_step (s t : Active) (a : ActiveStep) (hs : s.Closed)
    (ht : s.step a = some t) : t.Closed := by
  obtain ⟨h1, h2, h3⟩ := hs
  cases a <;> simp only [Active.step] at ht <;> split_ifs at ht <;>
    simp only [Option.some.injEq, reduceCtorEq] at ht <;> subst ht <;>
    simp_all [Active.Closed]

theorem Active.Closed_schedule (steps : List ActiveStep) (s : Active) (hs : s.Closed) :
    (s.schedule steps).Closed := by
  induction steps generalizing s with
  | nil => exact hs
  | cons a rest ih =>
    apply ih
    unfold Active.next
    cases h : s.step a with
    | none => exact hs
    | some t => exact Active.Closed_step s t a hs h

theorem Active.init_Closed : Active.init.Closed := by
  simp [Active.Closed, Active.init]

theorem Active.Stuck_step (s t : Active) (a : ActiveStep) (hs : s.Stuck)
    (ht : s.step a = some t) : t.Stuck := by
  obtain ⟨h1, h2, h3, h4⟩ := hs
  cases a <;> simp only [Active.step] at ht <;> split_ifs at ht <;>
    simp only [Option.some.injEq, reduceCtorEq] at ht <;> subst ht <;>
    simp_all [Active.Stuck]

theorem Active.Stuck_exec (steps : List ActiveStep) (s t : Active) (hs : s.Stuck)
    (ht : s.exec steps = some t) : t.Stuck := by
  induction steps generalizing s with
  | nil =>
    simp only [Active.exec, Option.some.injEq] at ht
    exact ht ▸ hs
  | cons a rest ih =>
    simp only [Active.exec] at ht
    cases h : s.step a with
    | none => simp [h] at ht
    | some u =>
      rw [h] at ht
      exact ih u (Active.Stuck_step s u a hs h) ht

/-- C7: an execution of the tasks of the Active state in which `snd` has returned, with
`done` closed, while `heartbeat` is blocked in `sndqueue <- bytes`. The timer of `heartbeat`
fires and `snd` receives the frame; while `snd` is in `conn.Write` the timer fires again and
`heartbeat` goes to its send; the write fails and `snd` returns. From then on, whatever steps
are taken, `heartbeat` stays in its send and `Run` stays in `wg.Wait()`. -/
theorem heartbeat_blocked_after_snd_returned :
    Active.init.exec [.heartbeatTimer, .heartbeatSend, .heartbeatTimer, .sndWrite false] =
      some { heartbeat := .send, snd := .stopped, rcv := .decode, ifaceRead := .read,
             run := .wait, doneClosed := true, connOpen := false, ifceOpen := true } ∧
    ∀ (steps : List ActiveStep) (t : Active),
      Active.exec { heartbeat := .send, snd := .stopped, rcv := .decode, ifaceRead := .read,
                    run := .wait, doneClosed := true, connOpen := false, ifceOpen := true }
        steps = some t →
      t.heartbeat = .send ∧ t.snd = .stopped ∧ t.doneClosed = true ∧ t.run = .wait := by
  refine ⟨by decide, fun steps t ht => ?_⟩
  exact Active.Stuck_exec steps _ t (by simp [Active.Stuck]) ht

end gtun

/-! ## gtun/client.go: properties of `Client.Run` -/

namespace gtun

/-- The round that ends the Active state leaves the socket and the interface closed. -/
theorem attempt_waitReturned_closed (client : Client) (a : Attempt)
    (h : RunEvent.waitReturned ∈ (attempt client a).trace) :
    (attempt client a).exit = .next ∧ (attempt client a).connOpen = false ∧
    (attempt client a).ifceOpen = false := by
  have hc := Active.Closed_schedule a.active Active.init Active.init_Closed
  revert h
  unfold attempt afterAccess afterAuthorize
  dsimp only
  obtain ⟨h1, h2, h3⟩ := hc
  split_ifs <;> simp <;> simp_all

/-- C6: a round of `Run` in which the interface is created and `setupIface` fails. The loop
starts its next round with the socket and the interface handle of the round both open, and
after a second such round `Run` holds two sockets and two interface handles. -/
theorem Run_setupIface_failure_keeps_open :
    (attempt { serverAddr := "127.0.0.1:9091", must := false }
        { server := "1.2.3.4:9000", accessErr := false, conServer := true, authorize := true,
          NewIfce := true, setupIface := false, active := [] }) =
      { trace := [.Access false, .conServer true, .authorize true, .NewIfce true, .goIfaceRead,
                  .setupIface false, .sleep],
        exit := .next, connOpen := true, ifceOpen := true } ∧
    (Run { serverAddr := "127.0.0.1:9091", must := false }
        [{ server := "1.2.3.4:9000", accessErr := false, conServer := true, authorize := true,
           NewIfce := true, setupIface := false, active := [] },
         { server := "1.2.3.4:9000", accessErr := false, conServer := true, authorize := true,
           NewIfce := true, setupIface := false, active := [] }]).conns = 2 ∧
    (Run { serverAddr := "127.0.0.1:9091", must := false }
        [{ server := "1.2.3.4:9000", accessErr := false, conServer := true, authorize := true,
           NewIfce := true, setupIface := false, active := [] },
         { server := "1.2.3.4:9000", accessErr := false, conServer := true, authorize := true,
           NewIfce := true, setupIface := false, active := [] }]).ifces = 2 := by
  decide

end gtun
